import Mathlib

/-!
Verification of the n8n credential injector scripts.

The repository contains six near-duplicate Node.js scripts. We embed the
pure/record-level logic of each variant shallowly:

* `FlagCLI`   — injector.js, first script (flag-based batch, CLI transport)
* `SingleCLI` — injector.js, second script (single record by USER_ID/PROVIDER)
* `ApiFlag`   — src/unnamed/part_000, first script (flag-based batch, HTTP API)
* `ApiFlag2`  — src/unnamed/part_000, second script (same, exit-1-on-failure)
* `DirectInsert` — src/unnamed/part_001 (direct DB insert with N8NCrypto)
* `QueueCLI`  — src/unnamed/part_003 (per-user queue, CLI transport)

External collaborators (Supabase queries, Node's `crypto` module, `fetch`,
`child_process.exec`) are modelled at the interface boundary: database tables
are lists of rows, the AES block cipher and SHA-256 hash are parameters
collected in `NodeCrypto`, and I/O outcomes are `Except` values passed in.
-/

/-! ## JavaScript-flavoured helpers -/

/-- JS `x || d` on a nullable string: `null`/`undefined` and `""` are falsy. -/
def jsOr (o : Option String) (d : String) : String :=
  match o with
  | none => d
  | some s => if s = "" then d else s

/-- JS truthiness of a nullable string (used by `!row.access_token` checks). -/
def jsTruthyStr (o : Option String) : Bool :=
  match o with
  | none => false
  | some s => s != ""

/-- JS `s.charAt(0).toUpperCase() + s.slice(1)` (ASCII upper-casing). -/
def capitalizeJs (s : String) : String :=
  match s.data with
  | [] => ""
  | c :: rest => ⟨Char.toUpper c :: rest⟩

/-- JS `s.replace('T', ' ')`: replace only the first occurrence. -/
def replaceFirstT : List Char → List Char
  | [] => []
  | c :: rest => if c = 'T' then ' ' :: rest else c :: replaceFirstT rest

/-- `new Date().toISOString().slice(0, 16).replace('T', ' ')` applied to an
ISO timestamp string. -/
def minuteTrunc (iso : String) : String :=
  ⟨replaceFirstT (iso.data.take 16)⟩

/-- Boolean list prefix test. -/
def startsWithChars : List Char → List Char → Bool
  | [], _ => true
  | _ :: _, [] => false
  | a :: as, b :: bs => a == b && startsWithChars as bs

/-- JS `hay.includes(needle)` on character lists. -/
def hasSubstring (needle : List Char) : List Char → Bool
  | [] => needle.isEmpty
  | c :: tl => startsWithChars needle (c :: tl) || hasSubstring needle tl

/-- JS `s.toLowerCase()` (ASCII). -/
def lowerStr (s : String) : String :=
  ⟨s.data.map Char.toLower⟩

/-! ## JSON values and `JSON.stringify` -/

/-- JSON values as produced/consumed by the scripts (no numbers are ever
serialized by them: all diagnostic payload fields are strings or booleans). -/
inductive Json where
  | str (s : String)
  | bool (b : Bool)
  | null
  | arr (xs : List Json)
  | obj (fields : List (String × Json))
deriving Repr

mutual

def Json.beq : Json → Json → Bool
  | .str a, .str b => a == b
  | .bool a, .bool b => a == b
  | .null, .null => true
  | .arr as, .arr bs => Json.beqList as bs
  | .obj as, .obj bs => Json.beqFields as bs
  | _, _ => false

def Json.beqList : List Json → List Json → Bool
  | [], [] => true
  | a :: as, b :: bs => Json.beq a b && Json.beqList as bs
  | _, _ => false

def Json.beqFields : List (String × Json) → List (String × Json) → Bool
  | [], [] => true
  | (k, v) :: as, (k2, v2) :: bs => k == k2 && Json.beq v v2 && Json.beqFields as bs
  | _, _ => false

end

mutual

theorem Json.eq_of_beq : ∀ {a b : Json}, Json.beq a b = true → a = b
  | .str _, .str _, h => by
    simp only [Json.beq, beq_iff_eq] at h; exact congrArg Json.str h
  | .bool _, .bool _, h => by
    simp only [Json.beq, beq_iff_eq] at h; exact congrArg Json.bool h
  | .null, .null, _ => rfl
  | .arr as, .arr bs, h => by
    simp only [Json.beq] at h; exact congrArg Json.arr (Json.eqList_of_beqList h)
  | .obj as, .obj bs, h => by
    simp only [Json.beq] at h; exact congrArg Json.obj (Json.eqFields_of_beqFields h)

theorem Json.eqList_of_beqList : ∀ {as bs : List Json}, Json.beqList as bs = true → as = bs
  | [], [], _ => rfl
  | a :: as, b :: bs, h => by
    simp only [Json.beqList, Bool.and_eq_true] at h
    rw [Json.eq_of_beq h.1, Json.eqList_of_beqList h.2]

theorem Json.eqFields_of_beqFields :
    ∀ {as bs : List (String × Json)}, Json.beqFields as bs = true → as = bs
  | [], [], _ => rfl
  | (k, v) :: as, (k2, v2) :: bs, h => by
    simp only [Json.beqFields, Bool.and_eq_true, beq_iff_eq] at h
    rw [h.1.1, Json.eq_of_beq h.1.2, Json.eqFields_of_beqFields h.2]

end

mutual

theorem Json.beq_refl : ∀ (a : Json), Json.beq a a = true
  | .str _ => by simp [Json.beq]
  | .bool _ => by simp [Json.beq]
  | .null => rfl
  | .arr as => by simp only [Json.beq]; exact Json.beqList_refl as
  | .obj as => by simp only [Json.beq]; exact Json.beqFields_refl as

theorem Json.beqList_refl : ∀ (as : List Json), Json.beqList as as = true
  | [] => rfl
  | a :: as => by
    simp only [Json.beqList, Bool.and_eq_true]
    exact ⟨Json.beq_refl a, Json.beqList_refl as⟩

theorem Json.beqFields_refl : ∀ (as : List (String × Json)), Json.beqFields as as = true
  | [] => rfl
  | (k, v) :: as => by
    simp only [Json.beqFields, Bool.and_eq_true, beq_self_eq_true, true_and]
    exact ⟨Json.beq_refl v, Json.beqFields_refl as⟩

end

instance : DecidableEq Json := fun a b =>
  decidable_of_iff (Json.beq a b = true)
    ⟨Json.eq_of_beq, fun h => h ▸ Json.beq_refl a⟩

/-- Hex digit character for a value below 16 (lowercase, as Node's `hex`
encoding); values 15 and above map to `f`. -/
def hexDigitChar (n : Nat) : Char :=
  match n with
  | 0 => '0'
  | 1 => '1'
  | 2 => '2'
  | 3 => '3'
  | 4 => '4'
  | 5 => '5'
  | 6 => '6'
  | 7 => '7'
  | 8 => '8'
  | 9 => '9'
  | 10 => 'a'
  | 11 => 'b'
  | 12 => 'c'
  | 13 => 'd'
  | 14 => 'e'
  | _ => 'f'

/-- String escaping of `JSON.stringify` for one character. -/
def escapeJsonChar (c : Char) : List Char :=
  if c = '"' then ['\\', '"']
  else if c = '\\' then ['\\', '\\']
  else if c = '\n' then ['\\', 'n']
  else if c = '\r' then ['\\', 'r']
  else if c = '\t' then ['\\', 't']
  else if c.toNat = 8 then ['\\', 'b']
  else if c.toNat = 12 then ['\\', 'f']
  else if c.toNat < 32 then
    ['\\', 'u', '0', '0', hexDigitChar (c.toNat / 16), hexDigitChar (c.toNat % 16)]
  else [c]

def escapeJsonString (s : String) : String :=
  ⟨(s.data.map escapeJsonChar).flatten⟩

mutual

/-- Compact `JSON.stringify` (no spacing argument). -/
def Json.stringify : Json → String
  | .str s => "\"" ++ escapeJsonString s ++ "\""
  | .bool b => if b then "true" else "false"
  | .null => "null"
  | .arr xs => "[" ++ Json.stringifyList xs ++ "]"
  | .obj fs => "\x7b" ++ Json.stringifyFields fs ++ "\x7d"

def Json.stringifyList : List Json → String
  | [] => ""
  | [x] => Json.stringify x
  | x :: y :: xs => Json.stringify x ++ "," ++ Json.stringifyList (y :: xs)

def Json.stringifyFields : List (String × Json) → String
  | [] => ""
  | [(k, v)] => "\"" ++ escapeJsonString k ++ "\":" ++ Json.stringify v
  | (k, v) :: f :: fs =>
    "\"" ++ escapeJsonString k ++ "\":" ++ Json.stringify v ++ "," ++
      Json.stringifyFields (f :: fs)

end

/-- JS member access `j.k` on a parsed JSON value: `undefined` is `none`. -/
def Json.getField : Json → String → Option Json
  | .obj fs, k => fs.lookup k
  | _, _ => none

/-- JS truthiness of a JSON value. -/
def Json.jsTruthy : Json → Bool
  | .str s => s != ""
  | .bool b => b
  | .null => false
  | .arr _ => true
  | .obj _ => true

/-- JS truthiness of a possibly-`undefined` JSON value. -/
def jsTruthyOptJson (o : Option Json) : Bool :=
  match o with
  | none => false
  | some j => j.jsTruthy

example : Json.stringify (Json.obj [("a", .str "x"), ("b", .bool true)]) =
    "\x7b\"a\":\"x\",\"b\":true\x7d" := by decide

/-! ## Byte-level encodings (hex, base64, UTF-8) -/

/-- UTF-8 encoding of one character (code point to byte list). -/
def charUtf8 (c : Char) : List Nat :=
  let n := c.toNat
  if n < 128 then [n]
  else if n < 2048 then [192 + n / 64, 128 + n % 64]
  else if n < 65536 then [224 + n / 4096, 128 + n / 64 % 64, 128 + n % 64]
  else [240 + n / 262144, 128 + n / 4096 % 64, 128 + n / 64 % 64, 128 + n % 64]

/-- UTF-8 encoding of a string as a byte list (Node `Buffer.from(s, 'utf8')`). -/
def utf8Encode (s : String) : List Nat :=
  (s.data.map charUtf8).flatten

/-- Node `buf.toString('hex')`: two lowercase hex digits per byte. -/
def hexEncode : List Nat → List Char
  | [] => []
  | b :: bs => hexDigitChar (b / 16) :: hexDigitChar (b % 16) :: hexEncode bs

/-- Value of one hex digit character. -/
def hexVal (c : Char) : Option Nat :=
  if 48 ≤ c.toNat ∧ c.toNat ≤ 57 then some (c.toNat - 48)
  else if 97 ≤ c.toNat ∧ c.toNat ≤ 102 then some (c.toNat - 97 + 10)
  else none

/-- Inverse of `hexEncode` (used by the spec-modelled decrypt side). -/
def hexDecode : List Char → Option (List Nat)
  | [] => some []
  | c1 :: c2 :: rest =>
    match hexVal c1, hexVal c2, hexDecode rest with
    | some h, some l, some bs => some ((h * 16 + l) :: bs)
    | _, _, _ => none
  | _ => none

/-- Character of the standard base64 alphabet at a given index (uppercase
letters, lowercase letters, digits, `+`, `/`). -/
def b64Char (n : Nat) : Char :=
  if n < 26 then Char.ofNat (65 + n)
  else if n < 52 then Char.ofNat (97 + (n - 26))
  else if n < 62 then Char.ofNat (48 + (n - 52))
  else if n = 62 then '+'
  else '/'

/-- Index of a character in the standard base64 alphabet. -/
def b64Val (c : Char) : Option Nat :=
  if 65 ≤ c.toNat ∧ c.toNat ≤ 90 then some (c.toNat - 65)
  else if 97 ≤ c.toNat ∧ c.toNat ≤ 122 then some (c.toNat - 97 + 26)
  else if 48 ≤ c.toNat ∧ c.toNat ≤ 57 then some (c.toNat - 48 + 52)
  else if c = '+' then some 62
  else if c = '/' then some 63
  else none

/-- Node `buf.toString('base64')` with standard padding. -/
def base64Encode : List Nat → List Char
  | [] => []
  | [a] => [b64Char (a / 4), b64Char (a % 4 * 16), '=', '=']
  | [a, b] => [b64Char (a / 4), b64Char (a % 4 * 16 + b / 16), b64Char (b % 16 * 4), '=']
  | a :: b :: c :: rest =>
    b64Char (a / 4) :: b64Char (a % 4 * 16 + b / 16) ::
      b64Char (b % 16 * 4 + c / 64) :: b64Char (c % 64) :: base64Encode rest

/-- Decode one base64 quad (possibly padded). -/
def decodeQuad (a b c d : Char) : Option (List Nat) :=
  if d = '=' then
    if c = '=' then
      match b64Val a, b64Val b with
      | some v1, some v2 => some [v1 * 4 + v2 / 16]
      | _, _ => none
    else
      match b64Val a, b64Val b, b64Val c with
      | some v1, some v2, some v3 => some [v1 * 4 + v2 / 16, v2 % 16 * 16 + v3 / 4]
      | _, _, _ => none
  else
    match b64Val a, b64Val b, b64Val c, b64Val d with
    | some v1, some v2, some v3, some v4 =>
      some [v1 * 4 + v2 / 16, v2 % 16 * 16 + v3 / 4, v3 % 4 * 64 + v4]
    | _, _, _, _ => none

/-- Inverse of `base64Encode` (used by the spec-modelled decrypt side). -/
def base64Decode : List Char → Option (List Nat)
  | [] => some []
  | a :: b :: c :: d :: rest =>
    match decodeQuad a b c d, base64Decode rest with
    | some h, some t => some (h ++ t)
    | _, _ => none
  | _ => none

/-! ## PKCS#7 padding, CBC chaining and the `N8NCrypto` class -/

/-- PKCS#7 padding to 16-byte blocks (what `aes-256-cbc` applies by default). -/
def pkcs7Pad (bs : List Nat) : List Nat :=
  let p := 16 - bs.length % 16
  bs ++ List.replicate p p

/-- PKCS#7 unpadding with a full padding check. -/
def pkcs7Unpad (bs : List Nat) : Option (List Nat) :=
  match bs.reverse with
  | [] => none
  | p :: _ =>
    if 1 ≤ p ∧ p ≤ 16 ∧ p ≤ bs.length ∧ (bs.drop (bs.length - p)).all (fun b => b = p)
    then some (bs.take (bs.length - p)) else none

/-- Split a byte list into 16-byte blocks (a trailing short block is kept). -/
def chunks16 : List Nat → List (List Nat)
  | [] => []
  | b0 :: b1 :: b2 :: b3 :: b4 :: b5 :: b6 :: b7 ::
      b8 :: b9 :: b10 :: b11 :: b12 :: b13 :: b14 :: b15 :: rest =>
    [b0, b1, b2, b3, b4, b5, b6, b7, b8, b9, b10, b11, b12, b13, b14, b15] :: chunks16 rest
  | l => [l]

/-- Pointwise XOR of two byte lists. -/
def xorBytes (a b : List Nat) : List Nat :=
  List.zipWith (fun x y => x ^^^ y) a b

/-- CBC encryption chaining over blocks: each block is XORed with the previous
ciphertext block (the IV for the first) before the block cipher is applied. -/
def cbcEncBlocks (enc : List Nat → List Nat) : List Nat → List (List Nat) → List (List Nat)
  | _, [] => []
  | prev, b :: bs =>
    let c := enc (xorBytes prev b)
    c :: cbcEncBlocks enc c bs

def cbcEncrypt (enc : List Nat → List Nat → List Nat) (key iv pt : List Nat) : List Nat :=
  (cbcEncBlocks (enc key) iv (chunks16 pt)).flatten

/-- CBC decryption chaining. -/
def cbcDecBlocks (dec : List Nat → List Nat) : List Nat → List (List Nat) → List (List Nat)
  | _, [] => []
  | prev, c :: cs => xorBytes prev (dec c) :: cbcDecBlocks dec c cs

def cbcDecrypt (dec : List Nat → List Nat → List Nat) (key iv ct : List Nat) : List Nat :=
  (cbcDecBlocks (dec key) iv (chunks16 ct)).flatten

/-- The primitives the scripts take from Node's `crypto` module (external
collaborator): `createHash('sha256')` and the `aes-256-cbc` block cipher on
single 16-byte blocks (keyed encryption and its inverse). -/
structure NodeCrypto where
  sha256 : List Nat → List Nat
  aesEncBlock : List Nat → List Nat → List Nat
  aesDecBlock : List Nat → List Nat → List Nat

/-- `N8NCrypto.encrypt` from src/unnamed/part_001: key is the SHA-256 digest of
the shared secret, the UTF-8 JSON serialization of `data` is encrypted with
`aes-256-cbc` under the given 16-byte IV, and the result is
`<hex iv>:<base64 ciphertext>`. The IV (`crypto.randomBytes(16)`) is a
parameter standing for the fresh random bytes drawn per call. -/
def N8NCrypto.encrypt (prim : NodeCrypto) (encryptionKey : String) (iv : List Nat)
    (data : Json) : String :=
  let key := prim.sha256 (utf8Encode encryptionKey)
  let ct := cbcEncrypt prim.aesEncBlock key iv (pkcs7Pad (utf8Encode (Json.stringify data)))
  ⟨hexEncode iv⟩ ++ ":" ++ ⟨base64Encode ct⟩

/-- Split a character list at the first colon. -/
def splitAtColon : List Char → Option (List Char × List Char)
  | [] => none
  | c :: rest =>
    if c = ':' then some ([], rest)
    else
      match splitAtColon rest with
      | some (l, r) => some (c :: l, r)
      | none => none

/-- Modelled from the spec: no decrypt operation exists in the repository (the
spec states "No decrypt operation is needed by this system"); this is the
matching key-derivation and cipher mode used by the external consumer — parse
the hex IV before the colon, base64-decode the ciphertext, derive the key as
the SHA-256 digest of the secret, CBC-decrypt and strip PKCS#7 padding. -/
def N8NCrypto.decrypt (prim : NodeCrypto) (encryptionKey : String)
    (stored : String) : Option (List Nat) :=
  match splitAtColon stored.data with
  | none => none
  | some (ivPart, ctPart) =>
    match hexDecode ivPart, base64Decode ctPart with
    | some iv, some ct =>
      pkcs7Unpad (cbcDecrypt prim.aesDecBlock (prim.sha256 (utf8Encode encryptionKey)) iv ct)
    | _, _ => none

/-! ## Round-trip lemmas for the encodings -/

theorem hexVal_hexDigitChar : ∀ n, n < 16 → hexVal (hexDigitChar n) = some n := by decide

theorem hexDigitChar_ne_colon : ∀ n, hexDigitChar n ≠ ':' := by
  intro n
  unfold hexDigitChar
  split <;> decide

theorem hexDecode_hexEncode : ∀ bs : List Nat, (∀ b ∈ bs, b < 256) →
    hexDecode (hexEncode bs) = some bs := by
  intro bs
  induction bs with
  | nil => intro _; rfl
  | cons b bs ih =>
    intro h
    have hb : b < 256 := h b (List.mem_cons_self b bs)
    have h1 : b / 16 < 16 := by omega
    have h2 : b % 16 < 16 := by omega
    simp only [hexEncode, hexDecode, hexVal_hexDigitChar _ h1, hexVal_hexDigitChar _ h2,
      ih (fun x hx => h x (List.mem_cons_of_mem b hx))]
    congr 2
    omega

theorem mem_hexEncode_ne_colon : ∀ bs : List Nat, ∀ c ∈ hexEncode bs, c ≠ ':' := by
  intro bs
  induction bs with
  | nil => intro c hc; cases hc
  | cons b bs ih =>
    intro c hc
    simp only [hexEncode, List.mem_cons] at hc
    rcases hc with h | h | h
    · exact h ▸ hexDigitChar_ne_colon _
    · exact h ▸ hexDigitChar_ne_colon _
    · exact ih c h

theorem b64Val_b64Char : ∀ n, n < 64 → b64Val (b64Char n) = some n := by decide

theorem b64Char_ne_pad : ∀ n, n < 64 → b64Char n ≠ '=' := by decide

theorem base64Decode_base64Encode : ∀ bs : List Nat, (∀ b ∈ bs, b < 256) →
    base64Decode (base64Encode bs) = some bs := by
  intro bs
  induction bs using base64Encode.induct with
  | case1 => intro _; rfl
  | case2 a =>
    intro h
    have ha : a < 256 := h a (by simp)
    have h1 : a / 4 < 64 := by omega
    have h2 : a % 4 * 16 < 64 := by omega
    simp [base64Encode, base64Decode, decodeQuad,
      b64Val_b64Char _ h1, b64Val_b64Char _ h2]
    omega
  | case3 a b =>
    intro h
    have ha : a < 256 := h a (by simp)
    have hb : b < 256 := h b (by simp)
    have h1 : a / 4 < 64 := by omega
    have h2 : a % 4 * 16 + b / 16 < 64 := by omega
    have h3 : b % 16 * 4 < 64 := by omega
    simp [base64Encode, base64Decode, decodeQuad, b64Char_ne_pad _ h3,
      b64Val_b64Char _ h1, b64Val_b64Char _ h2, b64Val_b64Char _ h3]
    omega
  | case4 a b c rest ih =>
    intro h
    have ha : a < 256 := h a (by simp)
    have hb : b < 256 := h b (by simp)
    have hc : c < 256 := h c (by simp)
    have h1 : a / 4 < 64 := by omega
    have h2 : a % 4 * 16 + b / 16 < 64 := by omega
    have h3 : b % 16 * 4 + c / 64 < 64 := by omega
    have h4 : c % 64 < 64 := by omega
    have hrest : base64Decode (base64Encode rest) = some rest :=
      ih (fun x hx => h x (by simp [hx]))
    simp [base64Encode, base64Decode, decodeQuad, b64Char_ne_pad _ h4,
      b64Val_b64Char _ h1, b64Val_b64Char _ h2, b64Val_b64Char _ h3, b64Val_b64Char _ h4,
      hrest]
    refine ⟨by omega, by omega, by omega⟩

theorem splitAtColon_append : ∀ (l r : List Char), (∀ c ∈ l, c ≠ ':') →
    splitAtColon (l ++ ':' :: r) = some (l, r) := by
  intro l r
  induction l with
  | nil => intro _; rfl
  | cons c tl ih =>
    intro h
    have hc : c ≠ ':' := h c (List.mem_cons_self c tl)
    have ih2 := ih (fun x hx => h x (List.mem_cons_of_mem c hx))
    simp [splitAtColon, hc, ih2]

theorem char_toNat_lt (c : Char) : c.toNat < 1114112 := by
  have h := c.valid
  rcases h with h | h
  · exact Nat.lt_trans h (by norm_num)
  · exact h.2

theorem mem_charUtf8_lt (c : Char) : ∀ b ∈ charUtf8 c, b < 256 := by
  have hc := char_toNat_lt c
  intro b hb
  simp only [charUtf8] at hb
  by_cases h1 : c.toNat < 128
  · rw [if_pos h1] at hb
    simp only [List.mem_cons, List.not_mem_nil, or_false] at hb
    omega
  rw [if_neg h1] at hb
  by_cases h2 : c.toNat < 2048
  · rw [if_pos h2] at hb
    simp only [List.mem_cons, List.not_mem_nil, or_false] at hb
    rcases hb with rfl | rfl <;> omega
  rw [if_neg h2] at hb
  by_cases h3 : c.toNat < 65536
  · rw [if_pos h3] at hb
    simp only [List.mem_cons, List.not_mem_nil, or_false] at hb
    rcases hb with rfl | rfl | rfl <;> omega
  rw [if_neg h3] at hb
  simp only [List.mem_cons, List.not_mem_nil, or_false] at hb
  rcases hb with rfl | rfl | rfl | rfl <;> omega

theorem mem_utf8Encode_lt (s : String) : ∀ b ∈ utf8Encode s, b < 256 := by
  intro b hb
  simp only [utf8Encode, List.mem_flatten, List.mem_map] at hb
  obtain ⟨l, ⟨c, _, rfl⟩, hbl⟩ := hb
  exact mem_charUtf8_lt c b hbl

theorem pkcs7Pad_length_mod (bs : List Nat) : (pkcs7Pad bs).length % 16 = 0 := by
  simp only [pkcs7Pad, List.length_append, List.length_replicate]
  omega

theorem mem_pkcs7Pad_lt (bs : List Nat) (h : ∀ b ∈ bs, b < 256) :
    ∀ b ∈ pkcs7Pad bs, b < 256 := by
  intro b hb
  simp only [pkcs7Pad, List.mem_append, List.mem_replicate] at hb
  rcases hb with hb | ⟨_, rfl⟩
  · exact h b hb
  · omega

theorem pkcs7Unpad_append_replicate (l : List Nat) (k : Nat) (hk : k + 1 ≤ 16) :
    pkcs7Unpad (l ++ List.replicate (k + 1) (k + 1)) = some l := by
  have hrev : (l ++ List.replicate (k + 1) (k + 1)).reverse
      = (k + 1) :: (List.replicate k (k + 1) ++ l.reverse) := by
    rw [List.reverse_append, List.reverse_replicate, List.replicate_succ]
    simp
  have hlen : (l ++ List.replicate (k + 1) (k + 1)).length = l.length + (k + 1) := by
    simp
  have harith : (l ++ List.replicate (k + 1) (k + 1)).length - (k + 1) = l.length := by
    omega
  unfold pkcs7Unpad
  rw [hrev]
  simp only
  rw [if_pos]
  · rw [harith, List.take_left]
  · refine ⟨by omega, hk, by omega, ?_⟩
    rw [harith, List.drop_left]
    simp [List.all_eq_true, List.eq_of_mem_replicate]

theorem pkcs7Unpad_pkcs7Pad (bs : List Nat) : pkcs7Unpad (pkcs7Pad bs) = some bs := by
  obtain ⟨k, hk⟩ : ∃ k, 16 - bs.length % 16 = k + 1 :=
    ⟨16 - bs.length % 16 - 1, by omega⟩
  simp only [pkcs7Pad, hk]
  exact pkcs7Unpad_append_replicate bs k (by omega)

theorem chunks16_of_block : ∀ (b : List Nat), b.length = 16 →
    ∀ t, chunks16 (b ++ t) = b :: chunks16 t := by
  intro b hb t
  rcases b with _ | ⟨x0, b⟩
  · simp at hb
  rcases b with _ | ⟨x1, b⟩
  · simp at hb
  rcases b with _ | ⟨x2, b⟩
  · simp at hb
  rcases b with _ | ⟨x3, b⟩
  · simp at hb
  rcases b with _ | ⟨x4, b⟩
  · simp at hb
  rcases b with _ | ⟨x5, b⟩
  · simp at hb
  rcases b with _ | ⟨x6, b⟩
  · simp at hb
  rcases b with _ | ⟨x7, b⟩
  · simp at hb
  rcases b with _ | ⟨x8, b⟩
  · simp at hb
  rcases b with _ | ⟨x9, b⟩
  · simp at hb
  rcases b with _ | ⟨x10, b⟩
  · simp at hb
  rcases b with _ | ⟨x11, b⟩
  · simp at hb
  rcases b with _ | ⟨x12, b⟩
  · simp at hb
  rcases b with _ | ⟨x13, b⟩
  · simp at hb
  rcases b with _ | ⟨x14, b⟩
  · simp at hb
  rcases b with _ | ⟨x15, b⟩
  · simp at hb
  rcases b with _ | ⟨x16, b⟩
  · rfl
  · simp at hb

theorem chunks16_flatten_of_blocks : ∀ (bs : List (List Nat)),
    (∀ b ∈ bs, b.length = 16) → chunks16 bs.flatten = bs := by
  intro bs
  induction bs with
  | nil => intro _; rfl
  | cons b rest ih =>
    intro h
    rw [List.flatten_cons, chunks16_of_block b (h b (List.mem_cons_self b rest)),
      ih (fun x hx => h x (List.mem_cons_of_mem b hx))]

theorem chunks16_spec : ∀ (n : Nat) (l : List Nat), l.length = 16 * n →
    (chunks16 l).flatten = l ∧
      ∀ b ∈ chunks16 l, b.length = 16 ∧ ∀ x ∈ b, x ∈ l := by
  intro n
  induction n with
  | zero =>
    intro l hl
    have : l = [] := List.eq_nil_of_length_eq_zero (by omega)
    subst this
    exact ⟨rfl, by intro b hb; cases hb⟩
  | succ n ih =>
    intro l hl
    rcases l with _ | ⟨x0, l⟩
    · simp only [List.length_cons, List.length_nil] at hl; omega
    rcases l with _ | ⟨x1, l⟩
    · simp only [List.length_cons, List.length_nil] at hl; omega
    rcases l with _ | ⟨x2, l⟩
    · simp only [List.length_cons, List.length_nil] at hl; omega
    rcases l with _ | ⟨x3, l⟩
    · simp only [List.length_cons, List.length_nil] at hl; omega
    rcases l with _ | ⟨x4, l⟩
    · simp only [List.length_cons, List.length_nil] at hl; omega
    rcases l with _ | ⟨x5, l⟩
    · simp only [List.length_cons, List.length_nil] at hl; omega
    rcases l with _ | ⟨x6, l⟩
    · simp only [List.length_cons, List.length_nil] at hl; omega
    rcases l with _ | ⟨x7, l⟩
    · simp only [List.length_cons, List.length_nil] at hl; omega
    rcases l with _ | ⟨x8, l⟩
    · simp only [List.length_cons, List.length_nil] at hl; omega
    rcases l with _ | ⟨x9, l⟩
    · simp only [List.length_cons, List.length_nil] at hl; omega
    rcases l with _ | ⟨x10, l⟩
    · simp only [List.length_cons, List.length_nil] at hl; omega
    rcases l with _ | ⟨x11, l⟩
    · simp only [List.length_cons, List.length_nil] at hl; omega
    rcases l with _ | ⟨x12, l⟩
    · simp only [List.length_cons, List.length_nil] at hl; omega
    rcases l with _ | ⟨x13, l⟩
    · simp only [List.length_cons, List.length_nil] at hl; omega
    rcases l with _ | ⟨x14, l⟩
    · simp only [List.length_cons, List.length_nil] at hl; omega
    rcases l with _ | ⟨x15, l⟩
    · simp only [List.length_cons, List.length_nil] at hl; omega
    have hrest : l.length = 16 * n := by
      simp only [List.length_cons] at hl
      omega
    obtain ⟨ihf, ihm⟩ := ih l hrest
    refine ⟨?_, ?_⟩
    · simp only [chunks16, List.flatten_cons, ihf]
      rfl
    · intro b hb
      simp only [chunks16, List.mem_cons] at hb
      rcases hb with rfl | hb
      · refine ⟨rfl, ?_⟩
        intro x hx
        simp only [List.mem_cons] at hx ⊢
        tauto
      · obtain ⟨hlen, hmem⟩ := ihm b hb
        refine ⟨hlen, fun x hx => ?_⟩
        have := hmem x hx
        simp only [List.mem_cons]
        tauto

theorem length_xorBytes (a b : List Nat) :
    (xorBytes a b).length = min a.length b.length := by
  simp [xorBytes]

theorem xorBytes_cancel : ∀ (a b : List Nat), a.length = b.length →
    xorBytes a (xorBytes a b) = b := by
  intro a
  induction a with
  | nil =>
    intro b hb
    have : b = [] := List.eq_nil_of_length_eq_zero (by simp at hb; omega)
    subst this
    rfl
  | cons x a ih =>
    intro b hb
    rcases b with _ | ⟨y, b⟩
    · simp at hb
    · simp only [xorBytes, List.zipWith_cons_cons] at *
      rw [Nat.xor_cancel_left]
      rw [ih b (by simpa using hb)]

theorem mem_xorBytes_lt : ∀ (a b : List Nat), (∀ x ∈ a, x < 256) →
    (∀ x ∈ b, x < 256) → ∀ x ∈ xorBytes a b, x < 256 := by
  intro a
  induction a with
  | nil => intro b _ _ x hx; cases hx
  | cons y a ih =>
    intro b hya hb x hx
    rcases b with _ | ⟨z, b⟩
    · cases hx
    · simp only [xorBytes, List.zipWith_cons_cons, List.mem_cons] at hx
      rcases hx with rfl | hx
      · have h1 : y < 256 := hya y (by simp)
        have h2 : z < 256 := hb z (by simp)
        have h256 : (256 : Nat) = 2 ^ 8 := by norm_num
        rw [h256] at h1 h2 ⊢
        exact Nat.xor_lt_two_pow h1 h2
      · exact ih b (fun t ht => hya t (by simp [ht]))
          (fun t ht => hb t (by simp [ht])) x hx

/-- CBC decryption inverts CBC encryption block-by-block, and every ciphertext
block produced is a bounded 16-byte block. -/
theorem cbcDecBlocks_cbcEncBlocks (enc dec : List Nat → List Nat)
    (hlen : ∀ b, b.length = 16 → (enc b).length = 16)
    (hbound : ∀ b, b.length = 16 → (∀ x ∈ b, x < 256) → ∀ x ∈ enc b, x < 256)
    (hinv : ∀ b, b.length = 16 → (∀ x ∈ b, x < 256) → dec (enc b) = b) :
    ∀ (blocks : List (List Nat)) (prev : List Nat), prev.length = 16 →
      (∀ x ∈ prev, x < 256) →
      (∀ b ∈ blocks, b.length = 16 ∧ ∀ x ∈ b, x < 256) →
      cbcDecBlocks dec prev (cbcEncBlocks enc prev blocks) = blocks ∧
        ∀ cb ∈ cbcEncBlocks enc prev blocks, cb.length = 16 ∧ ∀ x ∈ cb, x < 256 := by
  intro blocks
  induction blocks with
  | nil =>
    intro prev _ _ _
    exact ⟨rfl, by intro cb hcb; cases hcb⟩
  | cons b bs ih =>
    intro prev hprevlen hprevbound hblocks
    obtain ⟨hblen, hbbound⟩ := hblocks b (List.mem_cons_self b bs)
    have hxlen : (xorBytes prev b).length = 16 := by
      simp [length_xorBytes, hprevlen, hblen]
    have hxbound : ∀ x ∈ xorBytes prev b, x < 256 :=
      mem_xorBytes_lt prev b hprevbound hbbound
    have hclen : (enc (xorBytes prev b)).length = 16 := hlen _ hxlen
    have hcbound : ∀ x ∈ enc (xorBytes prev b), x < 256 := hbound _ hxlen hxbound
    have hdec : dec (enc (xorBytes prev b)) = xorBytes prev b := hinv _ hxlen hxbound
    obtain ⟨ih1, ih2⟩ := ih (enc (xorBytes prev b)) hclen hcbound
      (fun x hx => hblocks x (List.mem_cons_of_mem b hx))
    constructor
    · simp only [cbcEncBlocks, cbcDecBlocks, hdec, ih1,
        xorBytes_cancel prev b (by omega), and_self]
    · intro cb hcb
      simp only [cbcEncBlocks, List.mem_cons] at hcb
      rcases hcb with rfl | hcb
      · exact ⟨hclen, hcbound⟩
      · exact ih2 cb hcb

/-- Flat-byte-list CBC round trip for plaintexts padded to a block multiple. -/
theorem cbcDecrypt_cbcEncrypt (enc dec : List Nat → List Nat → List Nat) (key : List Nat)
    (hlen : ∀ b, b.length = 16 → (enc key b).length = 16)
    (hbound : ∀ b, b.length = 16 → (∀ x ∈ b, x < 256) → ∀ x ∈ enc key b, x < 256)
    (hinv : ∀ b, b.length = 16 → (∀ x ∈ b, x < 256) → dec key (enc key b) = b)
    (iv pt : List Nat) (hivlen : iv.length = 16) (hivbound : ∀ x ∈ iv, x < 256)
    (hpt : pt.length % 16 = 0) (hptbound : ∀ x ∈ pt, x < 256) :
    cbcDecrypt dec key iv (cbcEncrypt enc key iv pt) = pt := by
  obtain ⟨n, hn⟩ : ∃ n, pt.length = 16 * n := ⟨pt.length / 16, by omega⟩
  obtain ⟨hflat, hmem⟩ := chunks16_spec n pt hn
  have hblocks : ∀ b ∈ chunks16 pt, b.length = 16 ∧ ∀ x ∈ b, x < 256 := by
    intro b hb
    obtain ⟨h1, h2⟩ := hmem b hb
    exact ⟨h1, fun x hx => hptbound x (h2 x hx)⟩
  obtain ⟨hdec, hct⟩ := cbcDecBlocks_cbcEncBlocks (enc key) (dec key) hlen hbound hinv
    (chunks16 pt) iv hivlen hivbound hblocks
  unfold cbcDecrypt cbcEncrypt
  rw [chunks16_flatten_of_blocks _ (fun b hb => (hct b hb).1), hdec, hflat]

theorem mem_cbcEncBlocks_lt (enc : List Nat → List Nat)
    (hlen : ∀ b, b.length = 16 → (enc b).length = 16)
    (hbound : ∀ b, b.length = 16 → (∀ x ∈ b, x < 256) → ∀ x ∈ enc b, x < 256) :
    ∀ (blocks : List (List Nat)) (prev : List Nat), prev.length = 16 →
      (∀ x ∈ prev, x < 256) →
      (∀ b ∈ blocks, b.length = 16 ∧ ∀ x ∈ b, x < 256) →
      ∀ cb ∈ cbcEncBlocks enc prev blocks, cb.length = 16 ∧ ∀ x ∈ cb, x < 256 := by
  intro blocks
  induction blocks with
  | nil => intro prev _ _ _ cb hcb; cases hcb
  | cons b bs ih =>
    intro prev hprevlen hprevbound hblocks cb hcb
    obtain ⟨hblen, hbbound⟩ := hblocks b (List.mem_cons_self b bs)
    have hxlen : (xorBytes prev b).length = 16 := by
      simp [length_xorBytes, hprevlen, hblen]
    have hxbound : ∀ x ∈ xorBytes prev b, x < 256 :=
      mem_xorBytes_lt prev b hprevbound hbbound
    simp only [cbcEncBlocks, List.mem_cons] at hcb
    rcases hcb with rfl | hcb
    · exact ⟨hlen _ hxlen, hbound _ hxlen hxbound⟩
    · exact ih (enc (xorBytes prev b)) (hlen _ hxlen) (hbound _ hxlen hxbound)
        (fun x hx => hblocks x (List.mem_cons_of_mem b hx)) cb hcb

theorem mem_cbcEncrypt_lt (enc : List Nat → List Nat → List Nat) (key : List Nat)
    (hlen : ∀ b, b.length = 16 → (enc key b).length = 16)
    (hbound : ∀ b, b.length = 16 → (∀ x ∈ b, x < 256) → ∀ x ∈ enc key b, x < 256)
    (iv pt : List Nat) (hivlen : iv.length = 16) (hivbound : ∀ x ∈ iv, x < 256)
    (hpt : pt.length % 16 = 0) (hptbound : ∀ x ∈ pt, x < 256) :
    ∀ x ∈ cbcEncrypt enc key iv pt, x < 256 := by
  obtain ⟨n, hn⟩ : ∃ n, pt.length = 16 * n := ⟨pt.length / 16, by omega⟩
  obtain ⟨_, hmem⟩ := chunks16_spec n pt hn
  have hblocks : ∀ b ∈ chunks16 pt, b.length = 16 ∧ ∀ x ∈ b, x < 256 := by
    intro b hb
    obtain ⟨h1, h2⟩ := hmem b hb
    exact ⟨h1, fun x hx => hptbound x (h2 x hx)⟩
  intro x hx
  simp only [cbcEncrypt, List.mem_flatten] at hx
  obtain ⟨cb, hcb, hxcb⟩ := hx
  exact (mem_cbcEncBlocks_lt (enc key) hlen hbound (chunks16 pt) iv
    hivlen hivbound hblocks cb hcb).2 x hxcb

/-! ## Data model: credential rows and validated credentials -/

/-- Row of the shared `user_social_credentials` table. Timestamps are modelled
as natural numbers (ISO strings compare chronologically). Nullable text
columns are `Option String`. -/
structure Row where
  user_id : String
  provider : String
  token_source : Option String
  access_token : Option String
  refresh_token : Option String
  client_id : Option String
  client_secret : Option String
  injection_requested : Bool
  injected_to_n8n : Bool
  injection_requested_at : Nat
  created_at : Nat
  injection_error : Option String
  injection_attempted_at : Option Nat
  injected_at : Option Nat
  n8n_credential_id : Option String
  n8n_credential_ids : Option String
  additional_data : Option String
  updated_at : Option Nat
deriving Repr, DecidableEq

instance : Inhabited Row :=
  ⟨⟨"", "", none, none, none, none, none, false, false, 0, 0,
    none, none, none, none, none, none, none⟩⟩

/-- Validated credential as pushed into `validCredentials` by the fetch
functions (the CLI variant additionally carries `CONFIG.N8N_ENCRYPTION_KEY`
alongside, which no claim depends on). -/
structure Cred where
  user_id : String
  provider : String
  token_source : String
  access_token : String
  refresh_token : String
  client_id : String
  client_secret : String
  injection_requested_at : Nat
deriving Repr, DecidableEq

/-- Record is pending: `injection_requested = true AND injected_to_n8n = false`
(the spec's §3 invariant). -/
def pendingRow (r : Row) : Bool :=
  r.injection_requested && !r.injected_to_n8n

/-- Supabase `.order(key, ascending: true)`: insert into a sorted list. -/
def insertByKey (key : Row → Nat) (r : Row) : List Row → List Row
  | [] => [r]
  | x :: xs => if key r ≤ key x then r :: x :: xs else x :: insertByKey key r xs

/-- Sort a list of rows ascending by a numeric key. -/
def sortByKey (key : Row → Nat) : List Row → List Row
  | [] => []
  | x :: xs => insertByKey key x (sortByKey key xs)

/-- The fixed provider table, written identically in injector.js (both
scripts), part_000 (both scripts), part_001 and part_003. -/
def credentialTypes (p : String) : Option String :=
  if p = "google" then some "googleOAuth2Api"
  else if p = "spotify" then some "spotifyOAuth2Api"
  else if p = "github" then some "githubOAuth2Api"
  else if p = "discord" then some "discordOAuth2Api"
  else if p = "linkedin" then some "linkedInOAuth2Api"
  else none

/-- Credential display name: `` `${capitalized provider} OAuth2 - ${timestamp}` ``
where `timestamp = new Date().toISOString().slice(0, 16).replace('T', ' ')`.
The current time's ISO string is a parameter. -/
def credName (provider iso : String) : String :=
  capitalizeJs provider ++ " OAuth2 - " ++ minuteTrunc iso

/-- The six-field `data` object shared by the credential builders. -/
def credDataJson (c : Cred) : Json :=
  Json.obj [("clientId", .str c.client_id), ("clientSecret", .str c.client_secret),
    ("accessToken", .str c.access_token), ("refreshToken", .str c.refresh_token),
    ("tokenType", .str "Bearer"), ("grantType", .str "authorizationCode")]

/-! ## FlagCLI — injector.js, flag-based batch script -/

/-- Validation and projection of one fetched row (injector.js L195-L216):
skip unless `access_token`, `client_id` and `client_secret` are all truthy;
`token_source` defaults to `'auth0'` and `refresh_token` to `''` via JS `||`. -/
def FlagCLI.rowToCred (r : Row) : Option Cred :=
  if jsTruthyStr r.access_token && jsTruthyStr r.client_id &&
      jsTruthyStr r.client_secret then
    some ⟨r.user_id, r.provider, jsOr r.token_source "auth0",
      r.access_token.getD "", jsOr r.refresh_token "",
      r.client_id.getD "", r.client_secret.getD "", r.injection_requested_at⟩
  else none

/-- Supabase query of `fetchPendingCredentials` (injector.js L175-L180):
`injection_requested = true`, `injected_to_n8n = false`, ordered by
`injection_requested_at` ascending. -/
def FlagCLI.fetchQuery (table : List Row) : List Row :=
  sortByKey (fun r => r.injection_requested_at) (table.filter pendingRow)

/-- `fetchPendingCredentials` (injector.js L171-L226): query, then validate
each row in order. -/
def FlagCLI.fetchPendingCredentials (table : List Row) : List Cred :=
  (FlagCLI.fetchQuery table).filterMap FlagCLI.rowToCred

/-- `createCredentialTemplate` (injector.js L229-L260). The fresh
`crypto.randomUUID()` and the current ISO time are parameters. -/
def FlagCLI.createCredentialTemplate (c : Cred) (uuid iso : String) :
    Except String Json :=
  match credentialTypes c.provider with
  | none => .error ("Unsupported provider: " ++ c.provider)
  | some ty =>
    .ok (Json.obj [("id", .str uuid), ("name", .str (credName c.provider iso)),
      ("type", .str ty), ("data", credDataJson c)])

/-- Result value returned by the injection transports. -/
structure ImportResult where
  success : Bool
  credentialId : Option String
  message : String
  details : Json
deriving Repr

/-- Captured outcome of `execAsync` for the n8n CLI subprocess: an error
(spawn failure, non-zero exit, or the 2-minute timeout) with its JS
`error.message`, or normal completion with stdout and stderr. -/
structure ExecOk where
  stdout : String
  stderr : String

/-- The fixed phrase list checked against the subprocess output
(injector.js L316-L321, identically in part_003 L272-L277). -/
def successIndicators : List String :=
  ["Successfully imported", "imported", "credential", "Saved credential"]

/-- `stdout.toLowerCase().includes(indicator.toLowerCase())` for some phrase. -/
def stdoutIndicatesSuccess (stdout : String) : Bool :=
  successIndicators.any fun ind =>
    hasSubstring (lowerStr ind).data (lowerStr stdout).data

/-- Take the `id` member of the first element: `JSON.parse(jsonContent)[0].id`.
On an empty array JS throws a TypeError, which the surrounding catch turns
into a failure result. -/
def headIdString (payloads : List Json) : Option (Option String) :=
  match payloads with
  | [] => none
  | p :: _ =>
    match p.getField "id" with
    | some (.str s) => some (some s)
    | _ => some none

/-- `executeN8NImport` (injector.js L269-L367): write temp file, run
`n8n import:credentials`, classify success by substring match on stdout,
return the template id as the credential id; every failure is caught and
returned as `success: false`. `payloads` is the parsed `jsonContent`. -/
def FlagCLI.executeN8NImport (payloads : List Json)
    (outcome : Except String ExecOk) : ImportResult :=
  match outcome with
  | .error emsg =>
    { success := false, credentialId := none,
      message := if emsg = "" then "N8N CLI execution failed" else emsg,
      details := Json.obj [("error_type", .str "cli_execution_error")] }
  | .ok out =>
    if stdoutIndicatesSuccess out.stdout then
      match headIdString payloads with
      | none =>
        { success := false, credentialId := none,
          message := "Cannot read properties of undefined (reading 'id')",
          details := Json.obj [("error_type", .str "cli_execution_error")] }
      | some cid =>
        { success := true, credentialId := cid,
          message := "Credentials imported successfully via N8N CLI (flag-based)",
          details := Json.obj [("method", .str "flag_based_northflank_n8n_cli"),
            ("output", .str (⟨out.stdout.data.take 500⟩ : String))] }
    else
      { success := false, credentialId := none,
        message := "Import failed - no success indicators found in output: " ++ out.stdout,
        details := Json.obj [("error_type", .str "cli_execution_error")] }

/-- The `updateData` write-back common shape. `method`/`version` are the
variant-specific strings placed into `additional_data`; `clearFlag` is true
for the variants whose `updateData` contains `injection_requested: false`. -/
def updateRowData (method version : String) (clearFlag : Bool) (now : Nat)
    (success : Bool) (credentialId : Option String) (message : String)
    (details : Json) (r : Row) : Row :=
  let r1 : Row :=
    { r with
      injected_to_n8n := success
      injected_at := if success then some now else none
      injection_error := if success then none else some message
      injection_attempted_at := some now
      injection_requested := if clearFlag then false else r.injection_requested
      additional_data := some (Json.stringify (Json.obj
        [("injection_method", .str method), ("success", .bool success),
         ("error", if success then .null else .str message),
         ("details", details), ("platform", .str "northflank"),
         ("version", .str version)]))
      updated_at := some now }
  match credentialId with
  | some cid =>
    if cid ≠ "" then
      { r1 with
          n8n_credential_id := some cid
          n8n_credential_ids := some (Json.stringify (Json.arr [.str cid])) }
    else r1
  | none => r1

/-- `updateCredentialStatus` (injector.js L370-L419, flag-based script):
includes `injection_requested: false` ("Reset flag after processing"). -/
def FlagCLI.updateRow : Nat → Bool → Option String → String → Json → Row → Row :=
  updateRowData "flag_based_northflank_n8n_cli" "4.0" true

/-- `updateCredentialStatus` (injector.js L753-L799, single-record script):
its `updateData` does not mention `injection_requested` at all. -/
def SingleCLI.updateRow : Nat → Bool → Option String → String → Json → Row → Row :=
  updateRowData "northflank_n8n_cli" "3.0" false

/-- `updateCredentialStatus` (part_000 L362-L411, first script):
includes `injection_requested: false`. -/
def ApiFlag.updateRow : Nat → Bool → Option String → String → Json → Row → Row :=
  updateRowData "flag_based_n8n_api" "5.0" true

/-- `updateCredentialStatus` (part_000 L770-L819, second script):
includes `injection_requested: false`. -/
def ApiFlag2.updateRow : Nat → Bool → Option String → String → Json → Row → Row :=
  updateRowData "northflank_n8n_api_flag_based" "3.1" true

/-- `updateCredentialStatus` (part_001 L468-L503, direct-insert script):
includes `injection_requested: false`. -/
def DirectInsert.updateRow : Nat → Bool → Option String → String → Json → Row → Row :=
  updateRowData "direct_database_insert_with_diagnostics" "7.0" true

/-- `updateCredentialStatus` (part_003 L323-L377, queue script): its
`updateData` does not mention `injection_requested`. -/
def QueueCLI.updateRow : Nat → Bool → Option String → String → Json → Row → Row :=
  updateRowData "northflank_n8n_cli_queue" "3.1" false

/-! ## ApiFlag / ApiFlag2 — part_000, N8N REST API transport -/

/-- Validation and projection of one fetched row (part_000 L188-L209 and
L598-L618): the same truthiness checks and defaults as `FlagCLI.rowToCred`. -/
def ApiFlag.rowToCred (r : Row) : Option Cred :=
  if jsTruthyStr r.access_token && jsTruthyStr r.client_id &&
      jsTruthyStr r.client_secret then
    some ⟨r.user_id, r.provider, jsOr r.token_source "auth0",
      r.access_token.getD "", jsOr r.refresh_token "",
      r.client_id.getD "", r.client_secret.getD "", r.injection_requested_at⟩
  else none

/-- Supabase query of part_000's `fetchPendingCredentials` (L168-L173,
identical at L578-L583): same filter and order as `FlagCLI.fetchQuery`. -/
def ApiFlag.fetchQuery (table : List Row) : List Row :=
  sortByKey (fun r => r.injection_requested_at) (table.filter pendingRow)

def ApiFlag.fetchPendingCredentials (table : List Row) : List Cred :=
  (ApiFlag.fetchQuery table).filterMap ApiFlag.rowToCred

/-- `createCredentialPayload` (part_000 L263-L292 and L672-L700): like the
CLI template but with no `id` member. -/
def ApiFlag.createCredentialPayload (c : Cred) (iso : String) :
    Except String Json :=
  match credentialTypes c.provider with
  | none => .error ("Unsupported provider: " ++ c.provider)
  | some ty =>
    .ok (Json.obj [("name", .str (credName c.provider iso)),
      ("type", .str ty), ("data", credDataJson c)])

/-- Captured outcome of `fetch` + body reading for the create-credential call:
a thrown error's message, or a response with `ok`/`status`, the error body
text (read when `!response.ok`) and the parsed JSON body. -/
structure FetchResponse where
  ok : Bool
  status : Nat
  errorText : String
  bodyJson : Json

/-- `createN8NCredential` (part_000 L295-L359 and L703-L767): POST to
`/api/v1/credentials`; non-ok status or a missing `data.id` produce a thrown
error which the surrounding catch converts to a failure result. -/
def ApiFlag.createN8NCredential (outcome : Except String FetchResponse) :
    ImportResult :=
  match outcome with
  | .error emsg =>
    { success := false, credentialId := none,
      message := if emsg = "" then "N8N API request failed" else emsg,
      details := Json.obj [("error_type", .str "api_request_error")] }
  | .ok resp =>
    if !resp.ok then
      { success := false, credentialId := none,
        message := "N8N API request failed: " ++ toString resp.status ++ " - " ++
          resp.errorText,
        details := Json.obj [("error_type", .str "api_request_error")] }
    else if resp.bodyJson = Json.null then
      { success := false, credentialId := none,
        message := "Cannot read properties of null (reading 'id')",
        details := Json.obj [("error_type", .str "api_request_error")] }
    else
      match resp.bodyJson.getField "data" with
      | some d =>
        if d.jsTruthy then
          match d.getField "id" with
          | some (.str cid) =>
            if cid ≠ "" then
              { success := true, credentialId := some cid,
                message := "Credential created successfully via N8N API",
                details := Json.obj [("method", .str "n8n_api_direct")] }
            else
              { success := false, credentialId := none,
                message := "No credential ID returned from N8N API",
                details := Json.obj [("error_type", .str "api_request_error")] }
          | some idj =>
            if idj.jsTruthy then
              { success := true, credentialId := some (Json.stringify idj),
                message := "Credential created successfully via N8N API",
                details := Json.obj [("method", .str "n8n_api_direct")] }
            else
              { success := false, credentialId := none,
                message := "No credential ID returned from N8N API",
                details := Json.obj [("error_type", .str "api_request_error")] }
          | none =>
            { success := false, credentialId := none,
              message := "No credential ID returned from N8N API",
              details := Json.obj [("error_type", .str "api_request_error")] }
        else
          { success := false, credentialId := none,
            message := "No credential ID returned from N8N API",
            details := Json.obj [("error_type", .str "api_request_error")] }
      | none =>
        { success := false, credentialId := none,
          message := "No credential ID returned from N8N API",
          details := Json.obj [("error_type", .str "api_request_error")] }

/-! ## SingleCLI — injector.js, single-record script -/

/-- `createCredentialTemplate` (injector.js L613-L645): like `FlagCLI`'s but
with `createdAt`/`updatedAt` members carrying the full ISO timestamp. -/
def SingleCLI.createCredentialTemplate (c : Cred) (uuid iso : String) :
    Except String Json :=
  match credentialTypes c.provider with
  | none => .error ("Unsupported provider: " ++ c.provider)
  | some ty =>
    .ok (Json.obj [("id", .str uuid), ("name", .str (credName c.provider iso)),
      ("type", .str ty), ("data", credDataJson c),
      ("createdAt", .str iso), ("updatedAt", .str iso)])

/-! ## DirectInsert — part_001, direct database insert -/

/-- Validation and projection of one fetched row (part_001 L349-L366):
identical checks and defaults to the other flag-based scripts. -/
def DirectInsert.rowToCred (r : Row) : Option Cred :=
  if jsTruthyStr r.access_token && jsTruthyStr r.client_id &&
      jsTruthyStr r.client_secret then
    some ⟨r.user_id, r.provider, jsOr r.token_source "auth0",
      r.access_token.getD "", jsOr r.refresh_token "",
      r.client_id.getD "", r.client_secret.getD "", r.injection_requested_at⟩
  else none

/-- Supabase query of part_001's `fetchPendingCredentials` (L339-L344). -/
def DirectInsert.fetchQuery (table : List Row) : List Row :=
  sortByKey (fun r => r.injection_requested_at) (table.filter pendingRow)

def DirectInsert.fetchPendingCredentials (table : List Row) : List Cred :=
  (DirectInsert.fetchQuery table).filterMap DirectInsert.rowToCred

/-- `credentialDataObject` built by `insertCredentialToDatabase`
(part_001 L391-L403): the six common fields plus an `oauthTokenData` object. -/
def DirectInsert.credentialDataObject (c : Cred) : Json :=
  Json.obj [("clientId", .str c.client_id), ("clientSecret", .str c.client_secret),
    ("accessToken", .str c.access_token), ("refreshToken", .str c.refresh_token),
    ("tokenType", .str "Bearer"), ("grantType", .str "authorizationCode"),
    ("oauthTokenData", Json.obj [("access_token", .str c.access_token),
      ("refresh_token", .str c.refresh_token), ("token_type", .str "Bearer")])]

/-- Provider-type lookup and name synthesis of `insertCredentialToDatabase`
(part_001 L372-L432): on success the row `(id, name, type, encrypted data)`
to insert; the encryption itself is `N8NCrypto.encrypt`. -/
def DirectInsert.insertValues (prim : NodeCrypto) (encryptionKey : String)
    (iv : List Nat) (c : Cred) (uuid iso : String) :
    Except String (String × String × String × String) :=
  match credentialTypes c.provider with
  | none => .error ("Unsupported provider: " ++ c.provider)
  | some ty =>
    .ok (uuid, credName c.provider iso, ty,
      N8NCrypto.encrypt prim encryptionKey iv (DirectInsert.credentialDataObject c))

/-! ## QueueCLI — part_003, per-user queue script -/

/-- Supabase query of `findPendingCredentials` (part_003 L162-L168): rows of
the given user with `injected_to_n8n = false` and `injection_error IS NULL`,
ordered by `created_at` ascending; no field validation is performed. -/
def QueueCLI.findPendingCredentials (userId : String) (table : List Row) :
    List Row :=
  sortByKey (fun r => r.created_at)
    (table.filter fun r =>
      r.user_id == userId && !r.injected_to_n8n && r.injection_error == none)

/-- One optional JS object entry: a key whose value is `undefined` is dropped
by `JSON.stringify`. -/
def optStrField (k : String) (v : Option String) : List (String × Json) :=
  match v with
  | some s => [(k, Json.str s)]
  | none => []

/-- `createCredentialTemplate` (part_003 L183-L215): operates on the raw row
(no prior validation), so missing fields vanish from the serialized JSON;
`refreshToken` alone is defaulted with `|| ''`. -/
def QueueCLI.createCredentialTemplate (r : Row) (uuid iso : String) :
    Except String Json :=
  match credentialTypes r.provider with
  | none => .error ("Unsupported provider: " ++ r.provider)
  | some ty =>
    .ok (Json.obj ([("id", Json.str uuid), ("name", Json.str (credName r.provider iso)),
      ("type", Json.str ty),
      ("data", Json.obj (optStrField "clientId" r.client_id ++
        optStrField "clientSecret" r.client_secret ++
        optStrField "accessToken" r.access_token ++
        [("refreshToken", Json.str (jsOr r.refresh_token "")),
         ("tokenType", Json.str "Bearer"),
         ("grantType", Json.str "authorizationCode")])),
      ("createdAt", Json.str iso), ("updatedAt", Json.str iso)]))

/-- `executeN8NImport` (part_003 L227-L320): same classification as the
flag-based CLI script; the credential id is read from the
`{version, credentials, workflows}` envelope's first element. -/
def QueueCLI.executeN8NImport (payloads : List Json)
    (outcome : Except String ExecOk) : ImportResult :=
  match outcome with
  | .error emsg =>
    { success := false, credentialId := none,
      message := if emsg = "" then "N8N CLI execution failed" else emsg,
      details := Json.obj [("error_type", .str "cli_execution_error")] }
  | .ok out =>
    if stdoutIndicatesSuccess out.stdout then
      match headIdString payloads with
      | none =>
        { success := false, credentialId := none,
          message := "Cannot read properties of undefined (reading 'id')",
          details := Json.obj [("error_type", .str "cli_execution_error")] }
      | some cid =>
        { success := true, credentialId := cid,
          message := "Credentials imported successfully via N8N CLI",
          details := Json.obj [("method", .str "northflank_n8n_cli_queue"),
            ("output", .str (⟨out.stdout.data.take 500⟩ : String))] }
    else
      { success := false, credentialId := none,
        message := "Import failed - no success indicators found in output: " ++ out.stdout,
        details := Json.obj [("error_type", .str "cli_execution_error")] }

/-! ## Batch orchestration -/

/-- Effect of one Supabase `update().eq('user_id', uid).eq('provider', prov)
.eq('token_source', ts)` on the table: rows matching all three equalities are
replaced by `u`. A row whose `token_source` is NULL matches no equality. -/
def applyUpdate (uid prov ts : String) (u : Row → Row) : List Row → List Row
  | [] => []
  | r :: rest =>
    (if r.user_id == uid && r.provider == prov && r.token_source == some ts
     then u r else r) :: applyUpdate uid prov ts u rest

/-- One iteration of FlagCLI's record loop (injector.js L86-L147): build the
template (throwing on unsupported provider, caught before the transport is
reached), run the CLI import, and derive the status write-back; the `Bool`
records whether the transport was invoked. -/
def FlagCLI.recordStep (now : Nat) (iso : String) (uuidOf : Cred → String)
    (execOutcome : Cred → Except String ExecOk) (c : Cred) : (Row → Row) × Bool :=
  match FlagCLI.createCredentialTemplate c (uuidOf c) iso with
  | .error e =>
    (FlagCLI.updateRow now false none e (Json.obj [("error_type", .str "processing_error")]),
      false)
  | .ok tmpl =>
    let res := FlagCLI.executeN8NImport [tmpl] (execOutcome c)
    if res.success then
      (FlagCLI.updateRow now true res.credentialId
        "Credentials injected successfully via Northflank job (flag-based)" res.details,
        true)
    else
      (FlagCLI.updateRow now false none
        (if res.message = "" then "Import failed" else res.message)
        (Json.obj [("error_type", .str "processing_error")]),
        true)

/-- FlagCLI's whole batch pass: fetch, then process the validated credentials
sequentially in fetch order, writing each record's outcome back keyed by
`(user_id, provider, token_source)`. Returns the final table and, in
processing order, the credentials for which the transport was invoked. -/
def FlagCLI.processBatch (now : Nat) (iso : String) (uuidOf : Cred → String)
    (execOutcome : Cred → Except String ExecOk) (table : List Row) :
    List Row × List Cred :=
  (FlagCLI.fetchPendingCredentials table).foldl
    (fun acc c =>
      let step := FlagCLI.recordStep now iso uuidOf execOutcome c
      (applyUpdate c.user_id c.provider c.token_source step.1 acc.1,
        acc.2 ++ if step.2 then [c] else []))
    (table, [])

/-- One iteration of QueueCLI's record loop (part_003 L80-L134): the raw row
is used as the credential data; the write-back is keyed by the configured
`USER_ID`, the row's provider and `token_source || 'auth0'`. -/
def QueueCLI.recordStep (now : Nat) (iso : String) (uuidOf : Row → String)
    (execOutcome : Row → Except String ExecOk) (r : Row) : (Row → Row) × Bool :=
  match QueueCLI.createCredentialTemplate r (uuidOf r) iso with
  | .error e =>
    (QueueCLI.updateRow now false none e
      (Json.obj [("error_type", .str "northflank_job_processing_error")]), false)
  | .ok tmpl =>
    let res := QueueCLI.executeN8NImport [tmpl] (execOutcome r)
    if res.success then
      (QueueCLI.updateRow now true res.credentialId
        "Credentials injected successfully via Northflank job" res.details, true)
    else
      (QueueCLI.updateRow now false none
        (if res.message = "" then "Import failed" else res.message)
        (Json.obj [("error_type", .str "northflank_job_processing_error")]), true)

/-- QueueCLI's whole batch pass over the user's fetched rows (which were not
validated). Returns the final table and the rows for which the transport was
invoked. -/
def QueueCLI.processBatch (now : Nat) (iso : String) (uuidOf : Row → String)
    (execOutcome : Row → Except String ExecOk) (userId : String)
    (table : List Row) : List Row × List Row :=
  (QueueCLI.findPendingCredentials userId table).foldl
    (fun acc r =>
      let step := QueueCLI.recordStep now iso uuidOf execOutcome r
      (applyUpdate userId r.provider (jsOr r.token_source "auth0") step.1 acc.1,
        acc.2 ++ if step.2 then [r] else []))
    (table, [])

/-! ## Ordering lemmas for the fetch queries -/

theorem mem_insertByKey (key : Row → Nat) (r a : Row) :
    ∀ l : List Row, (a ∈ insertByKey key r l ↔ a = r ∨ a ∈ l) := by
  intro l
  induction l with
  | nil => simp [insertByKey]
  | cons x xs ih =>
    simp only [insertByKey]
    by_cases h : key r ≤ key x
    · simp [h]
    · simp only [if_neg h, List.mem_cons, ih]
      tauto

theorem mem_sortByKey (key : Row → Nat) (a : Row) :
    ∀ l : List Row, (a ∈ sortByKey key l ↔ a ∈ l) := by
  intro l
  induction l with
  | nil => simp [sortByKey]
  | cons x xs ih =>
    simp only [sortByKey, mem_insertByKey, ih, List.mem_cons]

theorem length_insertByKey (key : Row → Nat) (r : Row) :
    ∀ l : List Row, (insertByKey key r l).length = l.length + 1 := by
  intro l
  induction l with
  | nil => rfl
  | cons x xs ih =>
    simp only [insertByKey]
    by_cases h : key r ≤ key x
    · simp [h]
    · simp [h, ih]

theorem length_sortByKey (key : Row → Nat) :
    ∀ l : List Row, (sortByKey key l).length = l.length := by
  intro l
  induction l with
  | nil => rfl
  | cons x xs ih => simp [sortByKey, length_insertByKey, ih]

theorem pairwise_insertByKey (key : Row → Nat) (r : Row) :
    ∀ l : List Row, l.Pairwise (fun a b => key a ≤ key b) →
      (insertByKey key r l).Pairwise (fun a b => key a ≤ key b) := by
  intro l
  induction l with
  | nil => intro _; simp [insertByKey]
  | cons x xs ih =>
    intro h
    rw [List.pairwise_cons] at h
    obtain ⟨hx, hxs⟩ := h
    simp only [insertByKey]
    by_cases hle : key r ≤ key x
    · rw [if_pos hle, List.pairwise_cons]
      refine ⟨?_, List.pairwise_cons.mpr ⟨hx, hxs⟩⟩
      intro b hb
      rcases List.mem_cons.mp hb with rfl | hb
      · exact hle
      · exact Nat.le_trans hle (hx b hb)
    · rw [if_neg hle, List.pairwise_cons]
      refine ⟨?_, ih hxs⟩
      intro b hb
      rcases (mem_insertByKey key r b xs).mp hb with rfl | hb
      · omega
      · exact hx b hb

theorem pairwise_sortByKey (key : Row → Nat) :
    ∀ l : List Row, (sortByKey key l).Pairwise (fun a b => key a ≤ key b) := by
  intro l
  induction l with
  | nil => simp [sortByKey]
  | cons x xs ih => exact pairwise_insertByKey key x _ ih

/-- `Pairwise` transfers through `filterMap` when the mapping preserves the
sort key. -/
theorem pairwise_filterMap_key (key : Row → Nat) (ckey : Cred → Nat)
    (f : Row → Option Cred) (hf : ∀ r c, f r = some c → ckey c = key r) :
    ∀ l : List Row, l.Pairwise (fun a b => key a ≤ key b) →
      (l.filterMap f).Pairwise (fun a b => ckey a ≤ ckey b) := by
  intro l
  induction l with
  | nil => intro _; simp
  | cons x xs ih =>
    intro h
    rw [List.pairwise_cons] at h
    obtain ⟨hx, hxs⟩ := h
    rw [List.filterMap_cons]
    cases hfx : f x with
    | none => exact ih hxs
    | some c =>
      rw [List.pairwise_cons]
      refine ⟨?_, ih hxs⟩
      intro b hb
      obtain ⟨r, hr, hrb⟩ := List.mem_filterMap.mp hb
      rw [hf x c hfx, hf r b hrb]
      exact hx r hr

/-! ## Write-back application lemmas -/

/-- Normalized composite key of a row, as targeted by the write-backs. -/
def rowNKey (r : Row) : String × String × String :=
  (r.user_id, r.provider, jsOr r.token_source "auth0")

/-- Composite key of a validated credential. -/
def credNKey (c : Cred) : String × String × String :=
  (c.user_id, c.provider, c.token_source)

theorem jsOr_ne_empty (o : Option String) (d : String) (hd : d ≠ "") :
    jsOr o d ≠ "" := by
  cases o with
  | none => exact hd
  | some s =>
    simp only [jsOr]
    split
    · exact hd
    · assumption

theorem getD_mem : ∀ (l : List Row) (i : Nat) (d : Row), i < l.length →
    l.getD i d ∈ l := by
  intro l
  induction l with
  | nil => intro i d h; simp at h
  | cons x xs ih =>
    intro i d h
    cases i with
    | zero => simp
    | succ n =>
      simp only [List.getD_cons_succ, List.mem_cons]
      exact Or.inr (ih n d (by simp at h; omega))

theorem length_applyUpdate (uid prov ts : String) (u : Row → Row) :
    ∀ l : List Row, (applyUpdate uid prov ts u l).length = l.length := by
  intro l
  induction l with
  | nil => rfl
  | cons x xs ih => simp [applyUpdate, ih]

theorem getD_applyUpdate (uid prov ts : String) (u : Row → Row) :
    ∀ (l : List Row) (i : Nat) (d : Row), i < l.length →
      (applyUpdate uid prov ts u l).getD i d =
        (if (l.getD i d).user_id == uid && (l.getD i d).provider == prov &&
            (l.getD i d).token_source == some ts
         then u (l.getD i d) else l.getD i d) := by
  intro l
  induction l with
  | nil => intro i d h; simp at h
  | cons x xs ih =>
    intro i d h
    cases i with
    | zero => simp [applyUpdate]
    | succ n =>
      simp only [applyUpdate, List.getD_cons_succ]
      exact ih n d (by simp at h; omega)

/-- The first component of the orchestration fold is the fold of the updates. -/
theorem foldl_prod_fst {γ : Type} (f : List Row → γ → List Row) (g : γ → List γ) :
    ∀ (l : List γ) (a : List Row) (b : List γ),
      (l.foldl (fun acc c => (f acc.1 c, acc.2 ++ g c)) (a, b)).1 = l.foldl f a := by
  intro l
  induction l with
  | nil => intro a b; rfl
  | cons c l ih => intro a b; exact ih (f a c) (b ++ g c)

/-- The second component of the orchestration fold collects `g` over the list. -/
theorem foldl_prod_snd {γ : Type} (f : List Row → γ → List Row) (g : γ → List γ) :
    ∀ (l : List γ) (a : List Row) (b : List γ),
      (l.foldl (fun acc c => (f acc.1 c, acc.2 ++ g c)) (a, b)).2 =
        b ++ l.flatMap g := by
  intro l
  induction l with
  | nil => intro a b; simp
  | cons c l ih =>
    intro a b
    simp only [List.foldl_cons, ih, List.flatMap_cons, List.append_assoc]

theorem flatMap_if_singleton {γ : Type} (p : γ → Bool) :
    ∀ l : List γ, (l.flatMap fun c => if p c then [c] else []) = l.filter p := by
  intro l
  induction l with
  | nil => rfl
  | cons c l ih =>
    simp only [List.flatMap_cons, List.filter_cons, ih]
    by_cases h : p c <;> simp [h]

/-- Folding per-credential write-backs never touches a row whose key matches
none of the targeted keys. -/
theorem foldl_applyUpdate_preserve {γ : Type} (uidOf provOf tsOf : γ → String)
    (uF : γ → Row → Row) :
    ∀ (cs : List γ) (tbl : List Row) (i : Nat) (d : Row), i < tbl.length →
      (∀ c ∈ cs,
        ((tbl.getD i d).user_id == uidOf c && (tbl.getD i d).provider == provOf c &&
          (tbl.getD i d).token_source == some (tsOf c)) = false) →
      (cs.foldl (fun t c => applyUpdate (uidOf c) (provOf c) (tsOf c) (uF c) t)
          tbl).getD i d = tbl.getD i d ∧
        (cs.foldl (fun t c => applyUpdate (uidOf c) (provOf c) (tsOf c) (uF c) t)
          tbl).length = tbl.length := by
  intro cs
  induction cs with
  | nil => intro tbl i d h _; exact ⟨rfl, rfl⟩
  | cons c cs ih =>
    intro tbl i d h hm
    have h0 := hm c (List.mem_cons_self c cs)
    have hstep : (applyUpdate (uidOf c) (provOf c) (tsOf c) (uF c) tbl).getD i d =
        tbl.getD i d := by
      rw [getD_applyUpdate _ _ _ _ tbl i d h, h0]
      simp
    have hlen : (applyUpdate (uidOf c) (provOf c) (tsOf c) (uF c) tbl).length =
        tbl.length := length_applyUpdate _ _ _ _ tbl
    simp only [List.foldl_cons]
    obtain ⟨h1, h2⟩ := ih (applyUpdate (uidOf c) (provOf c) (tsOf c) (uF c) tbl) i d
      (by omega) (by intro x hx; rw [hstep]; exact hm x (List.mem_cons_of_mem c hx))
    exact ⟨h1.trans hstep, h2.trans hlen⟩

/-! ## Provenance of validated credentials -/

theorem mem_fetchPendingCredentials (table : List Row) (c : Cred) :
    c ∈ FlagCLI.fetchPendingCredentials table ↔
      ∃ r ∈ table, pendingRow r = true ∧ FlagCLI.rowToCred r = some c := by
  simp only [FlagCLI.fetchPendingCredentials, List.mem_filterMap, FlagCLI.fetchQuery,
    mem_sortByKey, List.mem_filter]
  constructor
  · rintro ⟨r, ⟨hr, hp⟩, hc⟩
    exact ⟨r, hr, hp, hc⟩
  · rintro ⟨r, hr, hp, hc⟩
    exact ⟨r, ⟨hr, hp⟩, hc⟩

theorem rowToCred_nkey (r : Row) (c : Cred) (h : FlagCLI.rowToCred r = some c) :
    credNKey c = rowNKey r ∧ c.token_source = jsOr r.token_source "auth0" ∧
      c.injection_requested_at = r.injection_requested_at := by
  simp only [FlagCLI.rowToCred] at h
  split at h
  · cases h
    exact ⟨rfl, rfl, rfl⟩
  · cases h

theorem rowToCred_valid (r : Row) (c : Cred) (h : FlagCLI.rowToCred r = some c) :
    (jsTruthyStr r.access_token && jsTruthyStr r.client_id &&
      jsTruthyStr r.client_secret) = true := by
  simp only [FlagCLI.rowToCred] at h
  split at h
  · assumption
  · cases h

/-- If a write-back's equality filters match a row, the row's normalized key
is the targeted credential key. -/
theorem match_eq_nkey (r : Row) (c : Cred) (hts : c.token_source ≠ "")
    (h : (r.user_id == c.user_id && r.provider == c.provider &&
      r.token_source == some c.token_source) = true) : rowNKey r = credNKey c := by
  simp only [Bool.and_eq_true, beq_iff_eq] at h
  obtain ⟨⟨h1, h2⟩, h3⟩ := h
  simp only [rowNKey, credNKey, h1, h2, h3, jsOr, if_neg hts]

theorem length_hexEncode : ∀ bs : List Nat, (hexEncode bs).length = 2 * bs.length := by
  intro bs
  induction bs with
  | nil => rfl
  | cons b bs ih => simp [hexEncode, ih]; omega

/-! ## Claims -/

/-- C2: the Symmetric Cipher's encrypt uses the SHA-256 digest of the shared
secret directly as the AES-256-CBC key (no salt, no key-stretching), encrypts
the UTF-8 JSON serialization of the payload under the given fresh 16-byte IV
with PKCS-style padding, and returns `"<hex iv>:<base64 ciphertext>"`; parsing
the output at the first colon recovers exactly the hex IV (32 hex characters,
decodable back to the IV) and the base64 ciphertext. -/
theorem c2_encrypt_format (prim : NodeCrypto) (encryptionKey : String)
    (iv : List Nat) (data : Json) (hivlen : iv.length = 16)
    (hivbound : ∀ b ∈ iv, b < 256) :
    N8NCrypto.encrypt prim encryptionKey iv data =
      (⟨hexEncode iv⟩ : String) ++ ":" ++
        ⟨base64Encode (cbcEncrypt prim.aesEncBlock
          (prim.sha256 (utf8Encode encryptionKey)) iv
          (pkcs7Pad (utf8Encode (Json.stringify data))))⟩ ∧
    splitAtColon (N8NCrypto.encrypt prim encryptionKey iv data).data =
      some (hexEncode iv, base64Encode (cbcEncrypt prim.aesEncBlock
        (prim.sha256 (utf8Encode encryptionKey)) iv
        (pkcs7Pad (utf8Encode (Json.stringify data))))) ∧
    hexDecode (hexEncode iv) = some iv ∧
    (hexEncode iv).length = 32 := by
  refine ⟨rfl, ?_, hexDecode_hexEncode iv hivbound, by rw [length_hexEncode, hivlen]⟩
  have hdata : (N8NCrypto.encrypt prim encryptionKey iv data).data =
      hexEncode iv ++ ':' :: base64Encode (cbcEncrypt prim.aesEncBlock
        (prim.sha256 (utf8Encode encryptionKey)) iv
        (pkcs7Pad (utf8Encode (Json.stringify data)))) := by
    simp [N8NCrypto.encrypt]
  rw [hdata]
  exact splitAtColon_append _ _ (mem_hexEncode_ne_colon iv)

/-- Shared identity block cipher used to witness the cipher-parametric
theorems: `aes-256-cbc` is replaced by the identity permutation. -/
def idNodeCrypto : NodeCrypto :=
  ⟨fun _ => List.replicate 32 0, fun _ b => b, fun _ b => b⟩

theorem c2_encrypt_format_witness :
    splitAtColon (N8NCrypto.encrypt idNodeCrypto "secret"
        (List.replicate 16 0) Json.null).data =
      some (hexEncode (List.replicate 16 0),
        base64Encode (cbcEncrypt idNodeCrypto.aesEncBlock
          (idNodeCrypto.sha256 (utf8Encode "secret")) (List.replicate 16 0)
          (pkcs7Pad (utf8Encode (Json.stringify Json.null))))) :=
  (c2_encrypt_format idNodeCrypto "secret" (List.replicate 16 0) Json.null
    (by decide) (by decide)).2.1

/-- C3: decrypting the stored string with the matching key derivation and
cipher mode (SHA-256 of the secret; AES-256-CBC with the IV parsed from the
hex prefix) reproduces the original JSON serialization byte-for-byte, for any
16-byte IV and any keyed block cipher that is a bounded 16-byte permutation
inverted by its decryption direction. -/
theorem c3_encrypt_decrypt_roundtrip (prim : NodeCrypto) (secret : String)
    (iv : List Nat) (data : Json) (hivlen : iv.length = 16)
    (hivbound : ∀ b ∈ iv, b < 256)
    (hlen : ∀ b, b.length = 16 →
      (prim.aesEncBlock (prim.sha256 (utf8Encode secret)) b).length = 16)
    (hbound : ∀ b, b.length = 16 → (∀ x ∈ b, x < 256) →
      ∀ x ∈ prim.aesEncBlock (prim.sha256 (utf8Encode secret)) b, x < 256)
    (hinv : ∀ b, b.length = 16 → (∀ x ∈ b, x < 256) →
      prim.aesDecBlock (prim.sha256 (utf8Encode secret))
        (prim.aesEncBlock (prim.sha256 (utf8Encode secret)) b) = b) :
    N8NCrypto.decrypt prim secret (N8NCrypto.encrypt prim secret iv data) =
      some (utf8Encode (Json.stringify data)) := by
  have hpadmod := pkcs7Pad_length_mod (utf8Encode (Json.stringify data))
  have hpadbound := mem_pkcs7Pad_lt (utf8Encode (Json.stringify data))
    (mem_utf8Encode_lt (Json.stringify data))
  have hctbound := mem_cbcEncrypt_lt prim.aesEncBlock
    (prim.sha256 (utf8Encode secret)) hlen hbound iv
    (pkcs7Pad (utf8Encode (Json.stringify data))) hivlen hivbound hpadmod hpadbound
  have hdata : (N8NCrypto.encrypt prim secret iv data).data =
      hexEncode iv ++ ':' :: base64Encode (cbcEncrypt prim.aesEncBlock
        (prim.sha256 (utf8Encode secret)) iv
        (pkcs7Pad (utf8Encode (Json.stringify data)))) := by
    simp [N8NCrypto.encrypt]
  rw [N8NCrypto.decrypt, hdata]
  simp only [splitAtColon_append _ _ (mem_hexEncode_ne_colon iv),
    hexDecode_hexEncode iv hivbound, base64Decode_base64Encode _ hctbound]
  rw [cbcDecrypt_cbcEncrypt prim.aesEncBlock prim.aesDecBlock
    (prim.sha256 (utf8Encode secret)) hlen hbound hinv iv _ hivlen hivbound
    hpadmod hpadbound]
  exact pkcs7Unpad_pkcs7Pad _

theorem c3_encrypt_decrypt_roundtrip_witness :
    N8NCrypto.decrypt idNodeCrypto "secret"
        (N8NCrypto.encrypt idNodeCrypto "secret" (List.replicate 16 0) Json.null) =
      some (utf8Encode (Json.stringify Json.null)) ∧
    utf8Encode (Json.stringify Json.null) = [110, 117, 108, 108] :=
  ⟨c3_encrypt_decrypt_roundtrip idNodeCrypto "secret" (List.replicate 16 0)
    Json.null (by decide) (by decide) (fun _ h => h) (fun _ _ hb => hb)
    (fun _ _ _ => rfl), by decide⟩

theorem startsWithChars_self_append : ∀ (l r : List Char),
    startsWithChars l (l ++ r) = true := by
  intro l r
  induction l with
  | nil => rfl
  | cons a as ih => simp [startsWithChars, ih]

theorem hasSubstring_self_append (l r : List Char) :
    hasSubstring l (l ++ r) = true := by
  cases l with
  | nil =>
    cases r with
    | nil => rfl
    | cons c tl => simp only [List.nil_append, hasSubstring, startsWithChars, Bool.true_or]
  | cons a as =>
    simp only [List.cons_append, hasSubstring, Bool.or_eq_true]
    exact Or.inl (startsWithChars_self_append (a :: as) r)

/-- C4: for every validated record the Payload Builder (both the CLI template
builder and the API payload builder) emits exactly the `type` given by the
fixed five-entry provider table, and for every provider outside that set it
fails with an error whose message contains "Unsupported provider" and produces
no payload. -/
theorem c4_provider_table :
    (credentialTypes "google" = some "googleOAuth2Api" ∧
     credentialTypes "spotify" = some "spotifyOAuth2Api" ∧
     credentialTypes "github" = some "githubOAuth2Api" ∧
     credentialTypes "discord" = some "discordOAuth2Api" ∧
     credentialTypes "linkedin" = some "linkedInOAuth2Api") ∧
    (∀ (c : Cred) (uuid iso ty : String), credentialTypes c.provider = some ty →
      FlagCLI.createCredentialTemplate c uuid iso =
        .ok (Json.obj [("id", .str uuid), ("name", .str (credName c.provider iso)),
          ("type", .str ty), ("data", credDataJson c)]) ∧
      ApiFlag.createCredentialPayload c iso =
        .ok (Json.obj [("name", .str (credName c.provider iso)),
          ("type", .str ty), ("data", credDataJson c)])) ∧
    (∀ (c : Cred) (uuid iso : String), c.provider ≠ "google" →
      c.provider ≠ "spotify" → c.provider ≠ "github" → c.provider ≠ "discord" →
      c.provider ≠ "linkedin" →
      FlagCLI.createCredentialTemplate c uuid iso =
        .error ("Unsupported provider: " ++ c.provider) ∧
      ApiFlag.createCredentialPayload c iso =
        .error ("Unsupported provider: " ++ c.provider) ∧
      hasSubstring "Unsupported provider".data
        ("Unsupported provider: " ++ c.provider).data = true) := by
  refine ⟨by decide, ?_, ?_⟩
  · intro c uuid iso ty h
    rw [FlagCLI.createCredentialTemplate, ApiFlag.createCredentialPayload, h]
    exact ⟨rfl, rfl⟩
  · intro c uuid iso h1 h2 h3 h4 h5
    have hn : credentialTypes c.provider = none := by
      simp [credentialTypes, h1, h2, h3, h4, h5]
    rw [FlagCLI.createCredentialTemplate, ApiFlag.createCredentialPayload, hn]
    refine ⟨rfl, rfl, ?_⟩
    have hsplit : ("Unsupported provider: " ++ c.provider).data =
        "Unsupported provider".data ++ ([':', ' '] ++ c.provider.data) := by
      simp
    rw [hsplit]
    exact hasSubstring_self_append _ _

theorem c4_provider_table_witness :
    FlagCLI.createCredentialTemplate
        ⟨"u1", "google", "auth0", "at", "", "cid", "cs", 0⟩ "id0" "2025-01-02T03:04:05.999Z" =
      .ok (Json.obj [("id", .str "id0"),
        ("name", .str (credName "google" "2025-01-02T03:04:05.999Z")),
        ("type", .str "googleOAuth2Api"),
        ("data", credDataJson ⟨"u1", "google", "auth0", "at", "", "cid", "cs", 0⟩)]) ∧
    FlagCLI.createCredentialTemplate
        ⟨"u1", "unsupported_xyz", "auth0", "at", "", "cid", "cs", 0⟩ "id0" "t" =
      .error ("Unsupported provider: " ++ "unsupported_xyz") :=
  ⟨(c4_provider_table.2.1 ⟨"u1", "google", "auth0", "at", "", "cid", "cs", 0⟩
      "id0" "2025-01-02T03:04:05.999Z" "googleOAuth2Api" (by decide)).1,
   (c4_provider_table.2.2 ⟨"u1", "unsupported_xyz", "auth0", "at", "", "cid", "cs", 0⟩
      "id0" "t" (by decide) (by decide) (by decide) (by decide) (by decide)).1⟩

/-- C10: record validation checks falsiness, not absence — a present but
empty `access_token`, `client_id` or `client_secret` is treated exactly like a
missing one (the record is skipped), in all three batch fetchers that
validate; only `refresh_token` may be empty and still yield a valid record,
in which case it defaults to the empty string. -/
theorem c10_empty_string_fields (r : Row) :
    (FlagCLI.rowToCred {r with access_token := some ""} = none ∧
     FlagCLI.rowToCred {r with access_token := some ""} =
       FlagCLI.rowToCred {r with access_token := none} ∧
     FlagCLI.rowToCred {r with client_id := some ""} = none ∧
     FlagCLI.rowToCred {r with client_id := some ""} =
       FlagCLI.rowToCred {r with client_id := none} ∧
     FlagCLI.rowToCred {r with client_secret := some ""} = none ∧
     FlagCLI.rowToCred {r with client_secret := some ""} =
       FlagCLI.rowToCred {r with client_secret := none}) ∧
    (FlagCLI.rowToCred {r with refresh_token := some ""} =
       FlagCLI.rowToCred {r with refresh_token := none} ∧
     ((FlagCLI.rowToCred {r with refresh_token := some ""}).map
        Cred.refresh_token).getD "" = "") ∧
    (ApiFlag.rowToCred {r with access_token := some ""} = none ∧
     ApiFlag.rowToCred {r with client_id := some ""} = none ∧
     ApiFlag.rowToCred {r with client_secret := some ""} = none ∧
     ApiFlag.rowToCred {r with refresh_token := some ""} =
       ApiFlag.rowToCred {r with refresh_token := none}) ∧
    (DirectInsert.rowToCred {r with access_token := some ""} = none ∧
     DirectInsert.rowToCred {r with client_id := some ""} = none ∧
     DirectInsert.rowToCred {r with client_secret := some ""} = none ∧
     DirectInsert.rowToCred {r with refresh_token := some ""} =
       DirectInsert.rowToCred {r with refresh_token := none}) := by
  refine ⟨⟨by simp [FlagCLI.rowToCred, jsTruthyStr], ?_, by
      simp [FlagCLI.rowToCred, jsTruthyStr], ?_, by
      simp [FlagCLI.rowToCred, jsTruthyStr], ?_⟩, ⟨?_, ?_⟩, ⟨by
      simp [ApiFlag.rowToCred, jsTruthyStr], by
      simp [ApiFlag.rowToCred, jsTruthyStr], by
      simp [ApiFlag.rowToCred, jsTruthyStr], ?_⟩, ⟨by
      simp [DirectInsert.rowToCred, jsTruthyStr], by
      simp [DirectInsert.rowToCred, jsTruthyStr], by
      simp [DirectInsert.rowToCred, jsTruthyStr], ?_⟩⟩
  · simp [FlagCLI.rowToCred, jsTruthyStr]
  · simp [FlagCLI.rowToCred, jsTruthyStr]
  · simp [FlagCLI.rowToCred, jsTruthyStr]
  · simp only [FlagCLI.rowToCred, jsOr]
    split <;> simp
  · simp only [FlagCLI.rowToCred, jsOr]
    split <;> simp
  · simp only [ApiFlag.rowToCred, jsOr]
    split <;> simp
  · simp only [DirectInsert.rowToCred, jsOr]
    split <;> simp

theorem append_ne_empty_left (s t : String) (h : s.data ≠ []) : s ++ t ≠ "" := by
  intro he
  apply h
  have hd := congrArg String.data he
  simp only [String.data_append] at hd
  exact List.append_eq_nil.mp (by simpa using hd) |>.1

/-- C8: the Injection Transport never throws — modelled as total functions
over every captured I/O outcome (timeout, thrown error, non-success status,
unexpected output); when the result is successful it carries the credential
id, and every failure result carries a non-empty human-readable message. -/
theorem c8_transport_contract :
    (∀ (payloads : List Json) (p : Json) (rest : List Json) (cid : String),
      payloads = p :: rest → p.getField "id" = some (.str cid) →
      ∀ outcome : Except String ExecOk,
        ((FlagCLI.executeN8NImport payloads outcome).success = true →
          (FlagCLI.executeN8NImport payloads outcome).credentialId = some cid) ∧
        ((FlagCLI.executeN8NImport payloads outcome).success = false →
          (FlagCLI.executeN8NImport payloads outcome).message ≠ "")) ∧
    (∀ outcome : Except String FetchResponse,
      ((ApiFlag.createN8NCredential outcome).success = true →
        (ApiFlag.createN8NCredential outcome).credentialId.isSome = true) ∧
      ((ApiFlag.createN8NCredential outcome).success = false →
        (ApiFlag.createN8NCredential outcome).message ≠ "")) := by
  constructor
  · rintro payloads p rest cid rfl hid outcome
    cases outcome with
    | error emsg =>
      refine ⟨fun h => by simp [FlagCLI.executeN8NImport] at h, fun _ => ?_⟩
      simp only [FlagCLI.executeN8NImport]
      split
      · decide
      · assumption
    | ok out =>
      by_cases hs : stdoutIndicatesSuccess out.stdout
      · have hhead : headIdString (p :: rest) = some (some cid) := by
          simp [headIdString, hid]
        refine ⟨fun _ => ?_, fun h => ?_⟩
        · simp [FlagCLI.executeN8NImport, hs, hhead]
        · simp [FlagCLI.executeN8NImport, hs, hhead] at h
      · refine ⟨fun h => ?_, fun _ => ?_⟩
        · simp [FlagCLI.executeN8NImport, hs] at h
        · simp only [FlagCLI.executeN8NImport, hs, Bool.false_eq_true, if_false]
          exact append_ne_empty_left _ _ (by decide)
  · intro outcome
    cases outcome with
    | error emsg =>
      refine ⟨fun h => by simp [ApiFlag.createN8NCredential] at h, fun _ => ?_⟩
      simp only [ApiFlag.createN8NCredential]
      split
      · decide
      · assumption
    | ok resp =>
      constructor
      · simp only [ApiFlag.createN8NCredential]
        repeat' split
        all_goals intro h
        all_goals simp_all
      · simp only [ApiFlag.createN8NCredential]
        repeat' split
        all_goals intro h2
        all_goals first
          | exact append_ne_empty_left _ _ (by decide)
          | exact append_ne_empty_left _ _ (by simp)
          | decide
          | simp_all

theorem c8_transport_contract_witness :
    (FlagCLI.executeN8NImport [Json.obj [("id", Json.str "abc")]]
      (.error "boom")).message ≠ "" :=
  (c8_transport_contract.1 [Json.obj [("id", Json.str "abc")]]
    (Json.obj [("id", Json.str "abc")]) [] "abc" rfl (by decide)
    (.error "boom")).2 (by decide)

/-- C9: with a non-empty payload array (as at every call site), the CLI
transports classify an import as successful exactly when the subprocess's
stdout, compared case-insensitively, contains one of the four fixed phrases;
with no phrase matched the attempt is a failure even though the subprocess
exited without error (`outcome = .ok`). -/
theorem c9_cli_success_classification (payloads : List Json) (p : Json)
    (rest : List Json) (hp : payloads = p :: rest) (stdout stderr : String) :
    ((FlagCLI.executeN8NImport payloads (.ok ⟨stdout, stderr⟩)).success = true ↔
      ∃ ind ∈ successIndicators,
        hasSubstring (lowerStr ind).data (lowerStr stdout).data = true) ∧
    ((QueueCLI.executeN8NImport payloads (.ok ⟨stdout, stderr⟩)).success = true ↔
      ∃ ind ∈ successIndicators,
        hasSubstring (lowerStr ind).data (lowerStr stdout).data = true) := by
  subst hp
  have hhead : ∃ x, headIdString (p :: rest) = some x := by
    simp only [headIdString]
    rcases p.getField "id" with _ | j
    · exact ⟨none, rfl⟩
    · cases j <;> exact ⟨_, rfl⟩
  obtain ⟨x, hx⟩ := hhead
  by_cases hs : stdoutIndicatesSuccess stdout
  · have hex : ∃ ind ∈ successIndicators,
        hasSubstring (lowerStr ind).data (lowerStr stdout).data = true := by
      simpa [stdoutIndicatesSuccess, List.any_eq_true] using hs
    exact ⟨⟨fun _ => hex, fun _ => by simp [FlagCLI.executeN8NImport, hs, hx]⟩,
      ⟨fun _ => hex, fun _ => by simp [QueueCLI.executeN8NImport, hs, hx]⟩⟩
  · have hex : ¬∃ ind ∈ successIndicators,
        hasSubstring (lowerStr ind).data (lowerStr stdout).data = true := by
      simpa [stdoutIndicatesSuccess, List.any_eq_true] using hs
    refine ⟨⟨fun h => ?_, fun h => absurd h hex⟩,
      ⟨fun h => ?_, fun h => absurd h hex⟩⟩
    · simp [FlagCLI.executeN8NImport, hs] at h
    · simp [QueueCLI.executeN8NImport, hs] at h

theorem c9_cli_success_classification_witness :
    (FlagCLI.executeN8NImport [Json.obj [("id", Json.str "a")]]
      (.ok ⟨"Successfully imported 1 credential.", ""⟩)).success = true :=
  ((c9_cli_success_classification [Json.obj [("id", Json.str "a")]]
      (Json.obj [("id", Json.str "a")]) [] rfl
      "Successfully imported 1 credential." "").1).mpr
    ⟨"imported", by decide, by decide⟩

/-- Concrete pending row used to exhibit the single-record variant's
write-back behaviour. -/
def c1PendingRow : Row :=
  { user_id := "u1", provider := "google", token_source := some "auth0",
    access_token := some "at", refresh_token := some "", client_id := some "cid",
    client_secret := some "cs", injection_requested := true,
    injected_to_n8n := false, injection_requested_at := 1, created_at := 1,
    injection_error := none, injection_attempted_at := none, injected_at := none,
    n8n_credential_id := none, n8n_credential_ids := none,
    additional_data := none, updated_at := none }

/-- C1 counterexample: the claim says every variant's status update clears
`injection_requested` regardless of outcome, but the single-record script's
`updateCredentialStatus` (injector.js L753-L799) never writes that column:
after a failed injection the record still satisfies the pending invariant. -/
theorem c1_single_variant_keeps_pending :
    pendingRow c1PendingRow = true ∧
    (SingleCLI.updateRow 5 false none "boom" (Json.obj []) c1PendingRow).injection_requested
      = true ∧
    pendingRow (SingleCLI.updateRow 5 false none "boom" (Json.obj []) c1PendingRow)
      = true := by
  refine ⟨rfl, rfl, rfl⟩

/-- C1 (amended): the write-backs of the four flag-clearing variants
(injector.js L370, part_000 L362 and L770, part_001 L468) transition the
record out of pending — on success they set `injected_to_n8n = true`, clear
`injection_requested` and record the transport-returned credential id; on
failure they set `injected_to_n8n = false`, clear `injection_requested` and
store the (non-empty) error message — while the single-record variant
(injector.js L753) and the queue variant (part_003 L323) leave
`injection_requested` untouched. -/
theorem c1_writeback_contract (now : Nat) (cid msg : String) (details : Json)
    (r : Row) (hcid : cid ≠ "") (hmsg : msg ≠ "") :
    ((FlagCLI.updateRow now true (some cid) msg details r).injected_to_n8n = true ∧
     (FlagCLI.updateRow now true (some cid) msg details r).injection_requested = false ∧
     (FlagCLI.updateRow now true (some cid) msg details r).n8n_credential_id = some cid ∧
     (FlagCLI.updateRow now false none msg details r).injected_to_n8n = false ∧
     (FlagCLI.updateRow now false none msg details r).injection_requested = false ∧
     (FlagCLI.updateRow now false none msg details r).injection_error = some msg ∧
     (FlagCLI.updateRow now false none msg details r).injection_error ≠ some "") ∧
    ((ApiFlag.updateRow now true (some cid) msg details r).injected_to_n8n = true ∧
     (ApiFlag.updateRow now true (some cid) msg details r).injection_requested = false ∧
     (ApiFlag.updateRow now true (some cid) msg details r).n8n_credential_id = some cid ∧
     (ApiFlag.updateRow now false none msg details r).injected_to_n8n = false ∧
     (ApiFlag.updateRow now false none msg details r).injection_requested = false ∧
     (ApiFlag.updateRow now false none msg details r).injection_error = some msg ∧
     (ApiFlag.updateRow now false none msg details r).injection_error ≠ some "") ∧
    ((ApiFlag2.updateRow now true (some cid) msg details r).injected_to_n8n = true ∧
     (ApiFlag2.updateRow now true (some cid) msg details r).injection_requested = false ∧
     (ApiFlag2.updateRow now true (some cid) msg details r).n8n_credential_id = some cid ∧
     (ApiFlag2.updateRow now false none msg details r).injected_to_n8n = false ∧
     (ApiFlag2.updateRow now false none msg details r).injection_requested = false ∧
     (ApiFlag2.updateRow now false none msg details r).injection_error = some msg ∧
     (ApiFlag2.updateRow now false none msg details r).injection_error ≠ some "") ∧
    ((DirectInsert.updateRow now true (some cid) msg details r).injected_to_n8n = true ∧
     (DirectInsert.updateRow now true (some cid) msg details r).injection_requested = false ∧
     (DirectInsert.updateRow now true (some cid) msg details r).n8n_credential_id = some cid ∧
     (DirectInsert.updateRow now false none msg details r).injected_to_n8n = false ∧
     (DirectInsert.updateRow now false none msg details r).injection_requested = false ∧
     (DirectInsert.updateRow now false none msg details r).injection_error = some msg ∧
     (DirectInsert.updateRow now false none msg details r).injection_error ≠ some "") ∧
    ((SingleCLI.updateRow now false none msg details r).injection_requested =
       r.injection_requested ∧
     (SingleCLI.updateRow now true (some cid) msg details r).injection_requested =
       r.injection_requested ∧
     (QueueCLI.updateRow now false none msg details r).injection_requested =
       r.injection_requested ∧
     (QueueCLI.updateRow now true (some cid) msg details r).injection_requested =
       r.injection_requested) := by
  refine ⟨?_, ?_, ?_, ?_, ?_⟩ <;>
    simp [FlagCLI.updateRow, ApiFlag.updateRow, ApiFlag2.updateRow,
      DirectInsert.updateRow, SingleCLI.updateRow, QueueCLI.updateRow,
      updateRowData, hcid, hmsg]

theorem c1_writeback_contract_witness :
    (FlagCLI.updateRow 5 true (some "n8n-1") "ok" (Json.obj []) c1PendingRow).injection_requested
        = false ∧
    (FlagCLI.updateRow 5 false none "boom" (Json.obj []) c1PendingRow).injection_error
        = some "boom" :=
  ⟨(c1_writeback_contract 5 "n8n-1" "boom" (Json.obj []) c1PendingRow
      (by decide) (by decide)).1.2.1,
   (c1_writeback_contract 5 "n8n-1" "boom" (Json.obj []) c1PendingRow
      (by decide) (by decide)).1.2.2.2.2.2.1⟩

theorem replaceFirstT_append : ∀ (l : List Char), 'T' ∉ l →
    ∀ m : List Char, replaceFirstT (l ++ 'T' :: m) = l ++ ' ' :: m := by
  intro l hl m
  induction l with
  | nil => simp [replaceFirstT]
  | cons c tl ih =>
    have hc : c ≠ 'T' := fun he => hl (he ▸ List.mem_cons_self c tl)
    simp only [List.cons_append, replaceFirstT, if_neg hc]
    exact congrArg (List.cons c) (ih (fun hm => hl (List.mem_cons_of_mem c hm)))

theorem minuteTrunc_structured (iso : String) (datePart timePart trailing : List Char)
    (hiso : iso.data = datePart ++ 'T' :: (timePart ++ trailing))
    (hd : datePart.length = 10) (ht : timePart.length = 5) (hnT : 'T' ∉ datePart) :
    (minuteTrunc iso).data = datePart ++ ' ' :: timePart := by
  simp only [minuteTrunc, hiso]
  have hsplit : datePart ++ 'T' :: (timePart ++ trailing) =
      (datePart ++ 'T' :: timePart) ++ trailing := by simp
  have hlen : (datePart ++ 'T' :: timePart).length = 16 := by
    simp [hd, ht]
  rw [hsplit, show (16 : Nat) = (datePart ++ 'T' :: timePart).length from hlen.symm,
    List.take_left]
  exact replaceFirstT_append datePart hnT timePart

/-- The C5 scenario record, validated (`token_source` defaulted to auth0). -/
def c5Cred : Cred := ⟨"u1", "google", "auth0", "at", "", "cid", "cs", 0⟩

/-- The C5 scenario record as a raw table row (used by the queue variant,
whose builder takes the unvalidated row). -/
def c5Row : Row :=
  { user_id := "u1", provider := "google", token_source := some "auth0",
    access_token := some "at", refresh_token := some "", client_id := some "cid",
    client_secret := some "cs", injection_requested := true,
    injected_to_n8n := false, injection_requested_at := 0, created_at := 0,
    injection_error := none, injection_attempted_at := none, injected_at := none,
    n8n_credential_id := none, n8n_credential_ids := none,
    additional_data := none, updated_at := none }

/-- C5 counterexample: the direct-insert variant's data object is not the
claimed six-field object — it additionally contains `oauthTokenData`
(part_001 L391-L403), so "every variant ... no other data fields" is false. -/
theorem c5_direct_insert_extra_field :
    DirectInsert.credentialDataObject c5Cred ≠
      Json.obj [("clientId", .str "cid"), ("clientSecret", .str "cs"),
        ("accessToken", .str "at"), ("refreshToken", .str ""),
        ("tokenType", .str "Bearer"), ("grantType", .str "authorizationCode")] ∧
    DirectInsert.credentialDataObject c5Cred =
      Json.obj [("clientId", .str "cid"), ("clientSecret", .str "cs"),
        ("accessToken", .str "at"), ("refreshToken", .str ""),
        ("tokenType", .str "Bearer"), ("grantType", .str "authorizationCode"),
        ("oauthTokenData", Json.obj [("access_token", .str "at"),
          ("refresh_token", .str ""), ("token_type", .str "Bearer")])] :=
  ⟨by decide, rfl⟩

/-- C5 (amended): for the scenario record every variant produces `type`
"googleOAuth2Api", the name "Google OAuth2 - <date> <HH:MM>" (minute-truncated,
space-separated, no seconds), and the six claimed data fields with the claimed
values; the CLI and API variants produce exactly those six data fields, while
the direct-insert variant additionally includes `oauthTokenData`. -/
theorem c5_google_record_payloads (uuid iso : String)
    (datePart timePart trailing : List Char)
    (hiso : iso.data = datePart ++ 'T' :: (timePart ++ trailing))
    (hd : datePart.length = 10) (ht : timePart.length = 5) (hnT : 'T' ∉ datePart) :
    (credName "google" iso).data =
      "Google OAuth2 - ".data ++ (datePart ++ ' ' :: timePart) ∧
    FlagCLI.createCredentialTemplate c5Cred uuid iso =
      .ok (Json.obj [("id", .str uuid), ("name", .str (credName "google" iso)),
        ("type", .str "googleOAuth2Api"),
        ("data", Json.obj [("clientId", .str "cid"), ("clientSecret", .str "cs"),
          ("accessToken", .str "at"), ("refreshToken", .str ""),
          ("tokenType", .str "Bearer"), ("grantType", .str "authorizationCode")])]) ∧
    SingleCLI.createCredentialTemplate c5Cred uuid iso =
      .ok (Json.obj [("id", .str uuid), ("name", .str (credName "google" iso)),
        ("type", .str "googleOAuth2Api"),
        ("data", Json.obj [("clientId", .str "cid"), ("clientSecret", .str "cs"),
          ("accessToken", .str "at"), ("refreshToken", .str ""),
          ("tokenType", .str "Bearer"), ("grantType", .str "authorizationCode")]),
        ("createdAt", .str iso), ("updatedAt", .str iso)]) ∧
    ApiFlag.createCredentialPayload c5Cred iso =
      .ok (Json.obj [("name", .str (credName "google" iso)),
        ("type", .str "googleOAuth2Api"),
        ("data", Json.obj [("clientId", .str "cid"), ("clientSecret", .str "cs"),
          ("accessToken", .str "at"), ("refreshToken", .str ""),
          ("tokenType", .str "Bearer"), ("grantType", .str "authorizationCode")])]) ∧
    QueueCLI.createCredentialTemplate c5Row uuid iso =
      .ok (Json.obj [("id", .str uuid), ("name", .str (credName "google" iso)),
        ("type", .str "googleOAuth2Api"),
        ("data", Json.obj [("clientId", .str "cid"), ("clientSecret", .str "cs"),
          ("accessToken", .str "at"), ("refreshToken", .str ""),
          ("tokenType", .str "Bearer"), ("grantType", .str "authorizationCode")]),
        ("createdAt", .str iso), ("updatedAt", .str iso)]) ∧
    DirectInsert.credentialDataObject c5Cred =
      Json.obj [("clientId", .str "cid"), ("clientSecret", .str "cs"),
        ("accessToken", .str "at"), ("refreshToken", .str ""),
        ("tokenType", .str "Bearer"), ("grantType", .str "authorizationCode"),
        ("oauthTokenData", Json.obj [("access_token", .str "at"),
          ("refresh_token", .str ""), ("token_type", .str "Bearer")])] := by
  refine ⟨?_, rfl, rfl, rfl, rfl, rfl⟩
  have hmt := minuteTrunc_structured iso datePart timePart trailing hiso hd ht hnT
  simp only [credName, String.data_append, hmt]
  have hlit : (capitalizeJs "google").data ++ " OAuth2 - ".data =
      "Google OAuth2 - ".data := by decide
  rw [← List.append_assoc, hlit]
  simp

theorem c5_google_record_payloads_witness :
    (credName "google" "2025-01-02T03:04:05.999Z").data =
      "Google OAuth2 - ".data ++ ("2025-01-02".data ++ ' ' :: "03:04".data) ∧
    (credName "google" "2025-01-02T03:04:05.999Z") = "Google OAuth2 - 2025-01-02 03:04" :=
  ⟨(c5_google_record_payloads "id0" "2025-01-02T03:04:05.999Z"
      "2025-01-02".data "03:04".data ":05.999Z".data (by decide) (by decide)
      (by decide) (by decide)).1, by decide⟩

/-- A pending row whose `access_token` is missing (required-field validation
should discard it). -/
def c6InvalidRow : Row :=
  { user_id := "u1", provider := "google", token_source := some "auth0",
    access_token := none, refresh_token := none, client_id := some "cid",
    client_secret := some "cs", injection_requested := true,
    injected_to_n8n := false, injection_requested_at := 1, created_at := 1,
    injection_error := none, injection_attempted_at := none, injected_at := none,
    n8n_credential_id := none, n8n_credential_ids := none,
    additional_data := none, updated_at := none }

/-- C6 counterexample: part_003's `findPendingCredentials` performs no
required-field validation, so a fetched record missing `access_token` is not
skipped — the queue variant invokes the transport for it and performs a
write-back (here after a failed import), contradicting "every variant ...
never invokes the injection transport ... and performs no write-back". -/
theorem c6_queue_variant_processes_invalid :
    jsTruthyStr c6InvalidRow.access_token = false ∧
    (QueueCLI.processBatch 5 "2025-01-02T03:04:05.999Z" (fun _ => "id0")
      (fun _ => .error "boom") "u1" [c6InvalidRow]).2 = [c6InvalidRow] ∧
    ((QueueCLI.processBatch 5 "2025-01-02T03:04:05.999Z" (fun _ => "id0")
      (fun _ => .error "boom") "u1" [c6InvalidRow]).1.getD 0 default).injection_attempted_at
      = some 5 ∧
    c6InvalidRow.injection_attempted_at = none := by
  refine ⟨rfl, rfl, rfl, rfl⟩

theorem rowToCred_none_of_invalid (r : Row)
    (h : jsTruthyStr r.access_token = false ∨ jsTruthyStr r.client_id = false ∨
      jsTruthyStr r.client_secret = false) :
    FlagCLI.rowToCred r = none ∧ ApiFlag.rowToCred r = none ∧
      DirectInsert.rowToCred r = none := by
  rcases h with h | h | h <;>
    exact ⟨by simp [FlagCLI.rowToCred, h], by simp [ApiFlag.rowToCred, h],
      by simp [DirectInsert.rowToCred, h]⟩

/-- C6 (amended): in the flag-based batch variants (injector.js first script,
part_000 both scripts, part_001) a fetched record missing any of
`access_token`/`client_id`/`client_secret` fails validation and is skipped:
it never reaches the transport and no write-back touches it (given the
table's composite keys are unique). The queue variant (part_003) performs no
such validation and processes such records. -/
theorem c6_flag_variants_skip_invalid
    (table : List Row) (now : Nat) (iso : String) (uuidOf : Cred → String)
    (execOutcome : Cred → Except String ExecOk) (i : Nat) (d : Row)
    (hi : i < table.length)
    (hinv : jsTruthyStr (table.getD i d).access_token = false ∨
      jsTruthyStr (table.getD i d).client_id = false ∨
      jsTruthyStr (table.getD i d).client_secret = false)
    (huniq : table.Pairwise (fun a b => rowNKey a ≠ rowNKey b)) :
    (FlagCLI.processBatch now iso uuidOf execOutcome table).1.getD i d =
      table.getD i d ∧
    (∀ c ∈ (FlagCLI.processBatch now iso uuidOf execOutcome table).2,
      credNKey c ≠ rowNKey (table.getD i d)) ∧
    FlagCLI.rowToCred (table.getD i d) = none ∧
    ApiFlag.rowToCred (table.getD i d) = none ∧
    DirectInsert.rowToCred (table.getD i d) = none := by
  obtain ⟨hr_none, hr_none2, hr_none3⟩ := rowToCred_none_of_invalid _ hinv
  have hmem_r : table.getD i d ∈ table := getD_mem table i d hi
  have hkey : ∀ c ∈ FlagCLI.fetchPendingCredentials table,
      credNKey c ≠ rowNKey (table.getD i d) := by
    intro c hc
    obtain ⟨r2, hr2, hpend, hcred⟩ := (mem_fetchPendingCredentials table c).mp hc
    obtain ⟨hnk, hts, _⟩ := rowToCred_nkey r2 c hcred
    have hne_rows : r2 ≠ table.getD i d := by
      intro he
      rw [he, hr_none] at hcred
      cases hcred
    have hsymm : Symmetric fun a b : Row => rowNKey a ≠ rowNKey b :=
      fun a b h => fun he => h he.symm
    have hnkne : rowNKey r2 ≠ rowNKey (table.getD i d) :=
      huniq.forall hsymm hr2 hmem_r hne_rows
    rw [hnk]
    exact hnkne
  have hcond : ∀ c ∈ FlagCLI.fetchPendingCredentials table,
      ((table.getD i d).user_id == c.user_id &&
        (table.getD i d).provider == c.provider &&
        (table.getD i d).token_source == some c.token_source) = false := by
    intro c hc
    obtain ⟨r2, hr2, hpend, hcred⟩ := (mem_fetchPendingCredentials table c).mp hc
    obtain ⟨hnk, hts, _⟩ := rowToCred_nkey r2 c hcred
    have hcts : c.token_source ≠ "" := by
      rw [hts]
      exact jsOr_ne_empty r2.token_source "auth0" (by decide)
    cases hcondb : ((table.getD i d).user_id == c.user_id &&
        (table.getD i d).provider == c.provider &&
        (table.getD i d).token_source == some c.token_source) with
    | false => rfl
    | true =>
      exact absurd (match_eq_nkey (table.getD i d) c hcts hcondb).symm
        (hkey c hc)
  have hfst : (FlagCLI.processBatch now iso uuidOf execOutcome table).1 =
      (FlagCLI.fetchPendingCredentials table).foldl
        (fun t c => applyUpdate c.user_id c.provider c.token_source
          (FlagCLI.recordStep now iso uuidOf execOutcome c).1 t) table := by
    unfold FlagCLI.processBatch
    exact foldl_prod_fst
      (fun t c => applyUpdate c.user_id c.provider c.token_source
        (FlagCLI.recordStep now iso uuidOf execOutcome c).1 t)
      (fun c => if (FlagCLI.recordStep now iso uuidOf execOutcome c).2
        then [c] else [])
      (FlagCLI.fetchPendingCredentials table) table []
  have hsnd : (FlagCLI.processBatch now iso uuidOf execOutcome table).2 =
      [] ++ (FlagCLI.fetchPendingCredentials table).flatMap
        (fun c => if (FlagCLI.recordStep now iso uuidOf execOutcome c).2
          then [c] else []) := by
    unfold FlagCLI.processBatch
    exact foldl_prod_snd
      (fun t c => applyUpdate c.user_id c.provider c.token_source
        (FlagCLI.recordStep now iso uuidOf execOutcome c).1 t)
      (fun c => if (FlagCLI.recordStep now iso uuidOf execOutcome c).2
        then [c] else [])
      (FlagCLI.fetchPendingCredentials table) table []
  refine ⟨?_, ?_, hr_none, hr_none2, hr_none3⟩
  · rw [hfst]
    exact (foldl_applyUpdate_preserve Cred.user_id Cred.provider Cred.token_source
      (fun c => (FlagCLI.recordStep now iso uuidOf execOutcome c).1)
      (FlagCLI.fetchPendingCredentials table) table i d hi hcond).1
  · intro c hc
    rw [hsnd] at hc
    simp only [List.nil_append, List.mem_flatMap] at hc
    obtain ⟨c2, hc2, hcc2⟩ := hc
    have : c = c2 := by
      by_cases hcall : (FlagCLI.recordStep now iso uuidOf execOutcome c2).2
      · rw [if_pos hcall] at hcc2
        simpa using hcc2
      · rw [if_neg hcall] at hcc2
        cases hcc2
    exact this ▸ hkey c2 hc2

theorem c6_flag_variants_skip_invalid_witness :
    (FlagCLI.processBatch 5 "iso" (fun _ => "id0") (fun _ => .error "boom")
      [c6InvalidRow]).1.getD 0 default = ([c6InvalidRow] : List Row).getD 0 default ∧
    FlagCLI.rowToCred (([c6InvalidRow] : List Row).getD 0 default) = none := by
  have h := c6_flag_variants_skip_invalid [c6InvalidRow] 5 "iso" (fun _ => "id0")
    (fun _ => .error "boom") 0 default (by decide) (Or.inl (by decide))
    (List.pairwise_singleton _ _)
  exact ⟨h.1, h.2.2.1⟩

theorem recordStep_called (now : Nat) (iso : String) (uuidOf : Cred → String)
    (execOutcome : Cred → Except String ExecOk) (c : Cred) :
    (FlagCLI.recordStep now iso uuidOf execOutcome c).2 =
      (credentialTypes c.provider).isSome := by
  simp only [FlagCLI.recordStep, FlagCLI.createCredentialTemplate]
  cases h : credentialTypes c.provider with
  | none => rfl
  | some ty =>
    simp only
    split <;> rfl

/-- A non-pending row (`injection_requested = false`) that part_003's query
nevertheless returns. -/
def c7NonPendingRow : Row :=
  { user_id := "u1", provider := "google", token_source := some "auth0",
    access_token := some "at", refresh_token := some "", client_id := some "cid",
    client_secret := some "cs", injection_requested := false,
    injected_to_n8n := false, injection_requested_at := 0, created_at := 3,
    injection_error := none, injection_attempted_at := none, injected_at := none,
    n8n_credential_id := none, n8n_credential_ids := none,
    additional_data := none, updated_at := none }

/-- C7 counterexample: not every batch variant fetches exactly the records
satisfying the pending invariant ordered by `injection_requested_at` — the
queue variant (part_003) filters on `injected_to_n8n = false` and
`injection_error IS NULL` (ignoring `injection_requested`) and orders by
`created_at`, so it fetches a record that is not pending. -/
theorem c7_queue_variant_fetches_nonpending :
    QueueCLI.findPendingCredentials "u1" [c7NonPendingRow] = [c7NonPendingRow] ∧
    pendingRow c7NonPendingRow = false := by
  refine ⟨rfl, rfl⟩

/-- C7 (amended): the flag-based batch variants fetch exactly the rows
satisfying the pending invariant (same membership, same count), sorted by
`injection_requested_at` ascending; the validated credentials inherit that
order, two of them with strictly increasing request timestamps are processed
at strictly increasing positions, and the per-record loop visits (and hands
to the transport) exactly the validated credentials with a supported
provider, in fetch order. The queue variant (part_003) instead fetches by
`(user_id, injected_to_n8n = false, injection_error IS NULL)` ordered by
`created_at`. -/
theorem c7_flag_fetch_order (table : List Row) (now : Nat) (iso : String)
    (uuidOf : Cred → String) (execOutcome : Cred → Except String ExecOk) :
    (∀ r : Row, r ∈ FlagCLI.fetchQuery table ↔ r ∈ table ∧ pendingRow r = true) ∧
    (FlagCLI.fetchQuery table).length = (table.filter pendingRow).length ∧
    (FlagCLI.fetchPendingCredentials table).Pairwise
      (fun a b => a.injection_requested_at ≤ b.injection_requested_at) ∧
    (∀ (i j : Fin (FlagCLI.fetchPendingCredentials table).length),
      ((FlagCLI.fetchPendingCredentials table).get i).injection_requested_at <
        ((FlagCLI.fetchPendingCredentials table).get j).injection_requested_at →
      (i : Nat) < (j : Nat)) ∧
    (FlagCLI.processBatch now iso uuidOf execOutcome table).2 =
      (FlagCLI.fetchPendingCredentials table).filter
        (fun c => (credentialTypes c.provider).isSome) := by
  refine ⟨?_, ?_, ?_, ?_, ?_⟩
  · intro r
    simp only [FlagCLI.fetchQuery, mem_sortByKey, List.mem_filter]
  · simp only [FlagCLI.fetchQuery, length_sortByKey]
  · exact pairwise_filterMap_key (fun r => r.injection_requested_at)
      (fun c => c.injection_requested_at) FlagCLI.rowToCred
      (fun r c h => (rowToCred_nkey r c h).2.2)
      _ (pairwise_sortByKey _ _)
  · intro i j hlt
    have hp : (FlagCLI.fetchPendingCredentials table).Pairwise
        (fun a b => a.injection_requested_at ≤ b.injection_requested_at) :=
      pairwise_filterMap_key (fun r => r.injection_requested_at)
        (fun c => c.injection_requested_at) FlagCLI.rowToCred
        (fun r c h => (rowToCred_nkey r c h).2.2)
        _ (pairwise_sortByKey (fun r => r.injection_requested_at)
          (table.filter pendingRow))
    rw [List.pairwise_iff_get] at hp
    rcases Nat.lt_trichotomy (i : Nat) (j : Nat) with h | h | h
    · exact h
    · exfalso
      have : i = j := Fin.ext h
      rw [this] at hlt
      omega
    · exfalso
      have := hp j i (by simpa using h)
      omega
  · have hsnd : (FlagCLI.processBatch now iso uuidOf execOutcome table).2 =
        [] ++ (FlagCLI.fetchPendingCredentials table).flatMap
          (fun c => if (FlagCLI.recordStep now iso uuidOf execOutcome c).2
            then [c] else []) := by
      unfold FlagCLI.processBatch
      exact foldl_prod_snd
        (fun t c => applyUpdate c.user_id c.provider c.token_source
          (FlagCLI.recordStep now iso uuidOf execOutcome c).1 t)
        (fun c => if (FlagCLI.recordStep now iso uuidOf execOutcome c).2
          then [c] else [])
        (FlagCLI.fetchPendingCredentials table) table []
    rw [hsnd, List.nil_append]
    have hfun : (fun c => if (FlagCLI.recordStep now iso uuidOf execOutcome c).2
        then [c] else []) =
        (fun c => if (credentialTypes c.provider).isSome then [c] else []) := by
      funext c
      rw [recordStep_called]
    rw [hfun]
    exact flatMap_if_singleton _ _

/-- Two pending valid rows with request timestamps 1 < 2, listed in reverse
order in the table. -/
def c7RowA : Row :=
  { user_id := "u1", provider := "google", token_source := some "auth0",
    access_token := some "at", refresh_token := some "", client_id := some "cid",
    client_secret := some "cs", injection_requested := true,
    injected_to_n8n := false, injection_requested_at := 1, created_at := 1,
    injection_error := none, injection_attempted_at := none, injected_at := none,
    n8n_credential_id := none, n8n_credential_ids := none,
    additional_data := none, updated_at := none }

def c7RowB : Row :=
  { user_id := "u2", provider := "github", token_source := some "auth0",
    access_token := some "at2", refresh_token := some "", client_id := some "cid2",
    client_secret := some "cs2", injection_requested := true,
    injected_to_n8n := false, injection_requested_at := 2, created_at := 2,
    injection_error := none, injection_attempted_at := none, injected_at := none,
    n8n_credential_id := none, n8n_credential_ids := none,
    additional_data := none, updated_at := none }

theorem c7_flag_fetch_order_witness :
    c7RowA ∈ FlagCLI.fetchQuery [c7RowB, c7RowA] ∧
    FlagCLI.fetchQuery [c7RowB, c7RowA] = [c7RowA, c7RowB] :=
  ⟨((c7_flag_fetch_order [c7RowB, c7RowA] 0 "" (fun _ => "")
      (fun _ => .error "")).1 c7RowA).mpr ⟨by decide, by decide⟩,
   by decide⟩
